import Mathlib

set_option maxHeartbeats 1000000

/-!  Verification of the batch analysis engine of the PR-MVP repository.

The definitions below embed the code of `backend/src/services/batch.service.ts`,
`backend/src/services/github.service.ts` and the batch-row operations of
`backend/src/services/database.service.ts`.  Asynchronous collaborator calls
(GitHub, the LLM, the persistence layer) are supplied as oracle functions, and
real time is supplied as oracle functions `elapsed` (value of
`Date.now() - batchStartTime` at the deadline check before each wave) and
`duration` (how long one item's pipeline runs, relative to the per-item timer).
-/

/-- A pull-request reference routed through the batch: `{org, repo, pr_number}`. -/
structure PRRef where
  org : String
  repo : String
  pr_number : Nat
deriving DecidableEq

/-- Raw GitHub pull-request payload fields read by the services
(`prData.number`, `prData.title`, `prData.body`, `prData.user.login`,
`prData.state`, timestamps, `pr.base.ref`, `pr.head.ref`). -/
structure RawPR where
  number : Nat
  title : String
  body : Option String
  userLogin : String
  state : String
  created_at : String
  updated_at : String
  baseRef : String
  headRef : String
deriving DecidableEq

/-- `PullRequest` row (backend/src/types/index.ts).  `id` is the SERIAL key;
`none` and `some 0` are both falsy in the JS check `existingPR && existingPR.id`. -/
structure PullRequest where
  id : Option Nat
  org : String
  repo : String
  pr_number : Nat
  title : String
  description : Option String
  author : String
  state : String
  created_at : String
  updated_at : String
  raw_data : RawPR
deriving DecidableEq

/-- `PRReport` row (backend/src/types/index.ts). -/
structure PRReport where
  id : Option Nat
  pr_id : Nat
  report_content : String
  generated_at : String
deriving DecidableEq

/-- `BatchResult` (backend/src/types/index.ts): one tagged outcome per item. -/
structure BatchResult where
  org : String
  repo : String
  pr_number : Nat
  success : Bool
  pr : Option PullRequest := none
  report : Option PRReport := none
  error : Option String := none
deriving DecidableEq

/-- How one item's promise settles under `Promise.allSettled`. -/
inductive Settled where
  | fulfilled (value : BatchResult)
  | rejected (reason : String)
deriving DecidableEq

/-- The writes `BatchService.processBatch` issues against the `batch_analyses`
row, in order (database.service.ts lines 107-137). -/
inductive DBOp where
  | start
  | progress (completedCount : Nat) (results : List BatchResult)
  | complete (results : List BatchResult)
  | fail (errorMessage : String)
deriving DecidableEq

/-- The loop over `chunkResults` (batch.service.ts lines 51-65): a fulfilled
promise contributes its value; a rejected one contributes a failure row built
from the chunk entry at the same index, with
`error: result.reason?.message || 'Unknown error'`. -/
def settleOne (outcome : PRRef → Settled) (pr : PRRef) : BatchResult :=
  match outcome pr with
  | .fulfilled v => v
  | .rejected reason =>
      { org := pr.org, repo := pr.repo, pr_number := pr.pr_number,
        success := false,
        error := some (if reason.isEmpty then "Unknown error" else reason) }

/-- Results of one wave, in chunk order. -/
def settleChunk (outcome : PRRef → Settled) (chunk : List PRRef) : List BatchResult :=
  chunk.map (settleOne outcome)

/-- The wave loop of `BatchService.processBatch` (batch.service.ts lines
38-69), returning the ordered list of Progress-Store operations.  `C` is
`this.concurrencyLimit`; `batchTimeoutMs` is `this.batchTimeoutMs`;
`elapsed k` is `Date.now() - batchStartTime` at the deadline check before wave
`k`; `outcome pr` is how `this.processSinglePRWithTimeout(pr)` settles.  The
structural `fuel` argument only serves termination: `processBatch` passes
`prList.length + 1`, which is never exhausted when the concurrency limit is
positive (with limit 0 the source's `i += 0` loop would never terminate
either; the fuel-out value is the empty trace). -/
def wavesGo (C batchTimeoutMs : Nat) (elapsed : Nat → Nat) (outcome : PRRef → Settled) :
    Nat → List PRRef → Nat → List BatchResult → List DBOp
  | 0, _, _, _ => []
  | _ + 1, [], _, acc => [DBOp.complete acc]
  | fuel + 1, pr :: rest, k, acc =>
      if batchTimeoutMs < elapsed k then
        [DBOp.fail "Batch processing timeout exceeded"]
      else
        let waveResults := settleChunk outcome ((pr :: rest).take C)
        let acc2 := acc ++ waveResults
        DBOp.progress acc2.length acc2 ::
          wavesGo C batchTimeoutMs elapsed outcome fuel ((pr :: rest).drop C) (k + 1) acc2

/-- `BatchService.processBatch` (batch.service.ts lines 26-77): mark the batch
processing, run the waves, and on normal termination complete the batch; the
deadline check throws and the catch block records the failure. -/
def processBatch (C batchTimeoutMs : Nat) (elapsed : Nat → Nat)
    (outcome : PRRef → Settled) (prList : List PRRef) : List DBOp :=
  DBOp.start :: wavesGo C batchTimeoutMs elapsed outcome (prList.length + 1) prList 0 []

/-- The `batch_analyses` row fields these operations touch. -/
structure StoreState where
  status : String
  completed_count : Nat
  results : List BatchResult
  error_message : Option String
deriving DecidableEq

/-- Row as created by `DatabaseService.createBatch`: status `pending`,
`completed_count` 0, no results yet. -/
def initialStore : StoreState :=
  { status := "pending", completed_count := 0, results := [], error_message := none }

/-- Effect of each UPDATE on the row (database.service.ts):
`startBatchProcessing` sets only the status; `updateBatchProgress` sets
`completed_count` and `results`; `completeBatch` sets status and `results`
(not `completed_count`); `failBatch` sets status and `error_message`
(it does not touch `results`). -/
def applyOp (s : StoreState) : DBOp → StoreState
  | .start => { s with status := "processing" }
  | .progress n rs => { s with completed_count := n, results := rs }
  | .complete rs => { s with status := "completed", results := rs }
  | .fail msg => { s with status := "failed", error_message := some msg }

/-- The row a poller sees after a trace of operations. -/
def runStore (ops : List DBOp) : StoreState := ops.foldl applyOp initialStore

/-- Number of iterations of `for (let i = 0; i < N; i += C)`: the number of
waves, `⌈N / C⌉`. -/
def numWaves (C N : Nat) : Nat := (N + C - 1) / C

/-- The completed counts flushed by `updateBatchProgress`, in write order. -/
def progressCounts (ops : List DBOp) : List Nat :=
  ops.filterMap fun op =>
    match op with
    | .progress n _ => some n
    | _ => none

/-- The result lists written to the row (`updateBatchProgress` and
`completeBatch`), in write order. -/
def resultsWrites (ops : List DBOp) : List (List BatchResult) :=
  ops.filterMap fun op =>
    match op with
    | .progress _ rs => some rs
    | .complete rs => some rs
    | _ => none

/-- JS `x || 0` on a possibly missing number (`undefined` and `0` both give
the fallback, which for `|| 0` is again 0). -/
def nat0 (o : Option Nat) : Nat := o.getD 0

/-- JS `x || d` on a possibly missing number: `undefined` and `0` are falsy. -/
def orNat (o : Option Nat) (d : Nat) : Nat :=
  match o with
  | some n => if n = 0 then d else n
  | none => d

/-- JS `s || d` on a possibly missing string: `undefined` and `''` are falsy. -/
def jsStrOr (o : Option String) (d : String) : String :=
  match o with
  | some s => if s.isEmpty then d else s
  | none => d

/-- JS `s || d` where the fallback is itself nullable
(`a || b || null` chains). -/
def jsOptOr (o : Option String) (d : Option String) : Option String :=
  match o with
  | some s => if s.isEmpty then d else some s
  | none => d

/-- JS `file.patch ? file.patch.slice(0, n) : dflt` as used on patch strings:
a missing or empty patch is falsy. -/
def jsPatchSlice (o : Option String) (n : Nat) : Option String :=
  match o with
  | some s => if s.isEmpty then none else some (s.take n)
  | none => none

/-- One entry of a GitHub file list (`pulls.listFiles`, `comparison.files`,
`commit.files`): the fields the services read. -/
structure RawFile where
  filename : String
  additions : Option Nat
  deletions : Option Nat
  changes : Option Nat
  status : String
  patch : Option String
deriving DecidableEq

/-- `commit.stats` / `commitDetails.stats` when present. -/
structure RawStats where
  additions : Option Nat
  deletions : Option Nat
  total : Option Nat
deriving DecidableEq

/-- One raw commit as returned by `pulls.listCommits`: the fields
`transformCommits`, `buildLastCommitFiles` and the merge-commit filter read.
`commitMessage`, `authorName`, `authorEmail`, `authorDate`, `committerDate`
stand for the nested `commit.commit?.…` accesses, `message`, `topAuthorName`,
`topAuthorEmail` for the top-level `commit.…` fallbacks. -/
structure RawCommit where
  sha : String
  commitMessage : Option String
  message : Option String
  authorName : Option String
  topAuthorName : Option String
  authorEmail : Option String
  topAuthorEmail : Option String
  authorDate : Option String
  committerDate : Option String
  files : Option (List RawFile)
  stats : Option RawStats
  parents : Option (List String)
  changed_files : Option Nat
deriving DecidableEq

/-- Response of `repos.getCommit` used by the `transformCommits` fallback. -/
structure CommitDetails where
  stats : Option RawStats
  files : Option (List RawFile)
deriving DecidableEq

/-- Response of `repos.compareCommits` (`base_commit?.sha`, `head_commit?.sha`,
`files`). -/
structure Comparison where
  baseCommitSha : Option String
  headCommitSha : Option String
  files : Option (List RawFile)
deriving DecidableEq

/-- Commit row produced by `GitHubService.transformCommits`. -/
structure TransformedCommit where
  pr_id : Nat
  commit_sha : String
  commit_message : String
  author_name : String
  author_email : String
  committed_at : Option String
  additions : Nat
  deletions : Nat
  changed_files : Nat
  raw_data : RawCommit
deriving DecidableEq

/-- File entry of `buildCommitDiffSummary` (patch sliced to 500 chars, `null`
when absent). -/
structure SummaryFileChange where
  filename : String
  additions : Nat
  deletions : Nat
  changes : Nat
  status : String
  patch : Option String
deriving DecidableEq

/-- Diff summary returned by `GitHubService.buildCommitDiffSummary`. -/
structure CommitDiffSummary where
  first_commit_sha : Option String
  last_commit_sha : Option String
  total_additions : Nat
  total_deletions : Nat
  total_changed_files : Nat
  files_changed : List SummaryFileChange
deriving DecidableEq

/-- `GitHubService.buildCommitDiffSummary` (github.service.ts lines 179-197):
summary of a direct base-head comparison; totals are reduced over
`comparison.files` and the file list is a direct map of it. -/
def buildCommitDiffSummary (comparison : Comparison) : CommitDiffSummary :=
  let files := comparison.files.getD []
  { first_commit_sha := comparison.baseCommitSha,
    last_commit_sha := comparison.headCommitSha,
    total_additions := (files.map fun f => nat0 f.additions).sum,
    total_deletions := (files.map fun f => nat0 f.deletions).sum,
    total_changed_files := files.length,
    files_changed := files.map fun file =>
      { filename := file.filename,
        additions := nat0 file.additions,
        deletions := nat0 file.deletions,
        changes := nat0 file.changes,
        status := file.status,
        patch := jsPatchSlice file.patch 500 } }

/-- Value type of the `filesChanged` object in `buildCommitDiffFromMetadata`
and of the entries of `buildLastCommitFiles` (patch defaults to `''`). -/
structure MetaFileChange where
  filename : String
  status : String
  additions : Nat
  deletions : Nat
  changes : Nat
  patch : String
deriving DecidableEq

/-- JS object assignment `filesChanged[file.filename] = entry`: an existing
key keeps its insertion position, a new key is appended. -/
def objSet : List MetaFileChange → MetaFileChange → List MetaFileChange
  | [], e => [e]
  | f :: fs, e => if f.filename = e.filename then e :: fs else f :: objSet fs e

/-- Entry written for one `prFiles` element (branch 2 of
`buildCommitDiffFromMetadata`). -/
def prFileEntry (file : RawFile) : MetaFileChange :=
  { filename := file.filename,
    status := file.status,
    additions := nat0 file.additions,
    deletions := nat0 file.deletions,
    changes := nat0 file.changes,
    patch := jsStrOr (file.patch.map fun s => s.take 2000) "" }

/-- Fresh zero entry created when a commit file's name is first seen
(branch 3 of `buildCommitDiffFromMetadata`). -/
def initEntry (file : RawFile) : MetaFileChange :=
  { filename := file.filename, status := file.status,
    additions := 0, deletions := 0, changes := 0, patch := "" }

/-- The in-place merge of one commit file into its map entry: stats are
accumulated, and the patch is overwritten by `file.patch.slice(0, 2000)` when
the raw patch is truthy and longer than the stored (already sliced) one. -/
def mergeFile (g : MetaFileChange) (file : RawFile) : MetaFileChange :=
  { g with
    additions := g.additions + nat0 file.additions,
    deletions := g.deletions + nat0 file.deletions,
    changes := g.changes + nat0 file.changes,
    patch :=
      match file.patch with
      | some p => if !p.isEmpty && g.patch.length < p.length then p.take 2000 else g.patch
      | none => g.patch }

/-- One `commitData.files.forEach` step of branch 3: get-or-create the entry
for the filename, then merge the file into it. -/
def mergeCommitFileMap : List MetaFileChange → RawFile → List MetaFileChange
  | [], file => [mergeFile (initEntry file) file]
  | g :: gs, file =>
      if g.filename = file.filename then mergeFile g file :: gs
      else g :: mergeCommitFileMap gs file

/-- The outer `rawGithubCommits.forEach` step of branch 3: a commit without a
`files` array contributes nothing. -/
def mergeCommitFiles (m : List MetaFileChange) (commitData : RawCommit) : List MetaFileChange :=
  match commitData.files with
  | some fs => fs.foldl mergeCommitFileMap m
  | none => m

/-- Diff summary returned by `GitHubService.buildCommitDiffFromMetadata`
(the non-empty case also carries a human-readable `summary`). -/
structure MetaDiffSummary where
  first_commit_sha : Option String
  last_commit_sha : Option String
  total_additions : Nat
  total_deletions : Nat
  total_changed_files : Nat
  files_changed : List MetaFileChange
  summary : Option String
deriving DecidableEq

/-- The `summary` template string of `buildCommitDiffFromMetadata`
(github.service.ts line 278). -/
def diffSummaryText (nCommits : Nat) (firstSha lastSha : String)
    (totA totD totF : Nat) : String :=
  "Comparison of " ++ toString nCommits ++ " commits from " ++ firstSha.take 7 ++
    " to " ++ lastSha.take 7 ++ ". Total changes: +" ++ toString totA ++ "/-" ++
    toString totD ++ " across " ++ toString totF ++ " files."

/-- `GitHubService.buildCommitDiffFromMetadata` (github.service.ts lines
201-280).  Totals start as the sums over the transformed commits' own stats;
they are recalculated from the `filesChanged` map only in the `prFiles`
branch.  In the per-commit aggregation branch (and when neither source is
available) the file map is built — or left empty — while the totals keep the
commit-stat sums. -/
def buildCommitDiffFromMetadata (commits : List TransformedCommit)
    (rawGithubCommits : Option (List RawCommit)) (prFiles : Option (List RawFile)) :
    MetaDiffSummary :=
  if hc : commits = [] then
    { first_commit_sha := none, last_commit_sha := none,
      total_additions := 0, total_deletions := 0, total_changed_files := 0,
      files_changed := [], summary := none }
  else
    let firstCommit := commits.head hc
    let lastCommit := commits.getLast hc
    let baseAdditions := (commits.map fun c => c.additions).sum
    let baseDeletions := (commits.map fun c => c.deletions).sum
    let baseChangedFiles := (commits.map fun c => c.changed_files).sum
    let viaPRFiles : Option (List MetaFileChange) :=
      match prFiles with
      | some pfs =>
          if 0 < pfs.length then some (pfs.foldl (fun m f => objSet m (prFileEntry f)) [])
          else none
      | none => none
    match viaPRFiles with
    | some filesChanged =>
        { first_commit_sha := some firstCommit.commit_sha,
          last_commit_sha := some lastCommit.commit_sha,
          total_additions := (filesChanged.map fun f => f.additions).sum,
          total_deletions := (filesChanged.map fun f => f.deletions).sum,
          total_changed_files := filesChanged.length,
          files_changed := filesChanged,
          summary := some (diffSummaryText commits.length firstCommit.commit_sha
            lastCommit.commit_sha ((filesChanged.map fun f => f.additions).sum)
            ((filesChanged.map fun f => f.deletions).sum) filesChanged.length) }
    | none =>
        let filesChanged :=
          match rawGithubCommits with
          | some rgc => if 0 < rgc.length then rgc.foldl mergeCommitFiles [] else []
          | none => []
        { first_commit_sha := some firstCommit.commit_sha,
          last_commit_sha := some lastCommit.commit_sha,
          total_additions := baseAdditions,
          total_deletions := baseDeletions,
          total_changed_files := baseChangedFiles,
          files_changed := filesChanged,
          summary := some (diffSummaryText commits.length firstCommit.commit_sha
            lastCommit.commit_sha baseAdditions baseDeletions baseChangedFiles) }

/-- Result row of `GitHubService.buildLastCommitFiles`. -/
structure LastCommitFiles where
  pr_id : Option Nat
  commit_sha : Option String
  commit_message : Option String
  author_name : Option String
  author_email : Option String
  committed_at : Option String
  total_additions : Nat
  total_deletions : Nat
  total_changed_files : Nat
  files_changed : List MetaFileChange
deriving DecidableEq

/-- `GitHubService.buildLastCommitFiles` (github.service.ts lines 301-337):
stats of the final commit, with the PR-level file list (patches sliced to
2000 chars, `''` when absent). -/
def buildLastCommitFiles (lastCommitData : Option RawCommit)
    (filesData : List RawFile) : LastCommitFiles :=
  match lastCommitData with
  | none =>
      { pr_id := none, commit_sha := none, commit_message := none,
        author_name := none, author_email := none, committed_at := none,
        total_additions := 0, total_deletions := 0, total_changed_files := 0,
        files_changed := [] }
  | some lcd =>
      let files := filesData
      { pr_id := none,
        commit_sha := some lcd.sha,
        commit_message := some (jsStrOr lcd.commitMessage (jsStrOr lcd.message "")),
        author_name := some (jsStrOr lcd.authorName (jsStrOr lcd.topAuthorName "Unknown")),
        author_email := some (jsStrOr lcd.authorEmail (jsStrOr lcd.topAuthorEmail "")),
        committed_at := jsOptOr lcd.authorDate (jsOptOr lcd.committerDate none),
        total_additions := (files.map fun f => nat0 f.additions).sum,
        total_deletions := (files.map fun f => nat0 f.deletions).sum,
        total_changed_files := files.length,
        files_changed := files.map fun file =>
          { filename := file.filename,
            additions := nat0 file.additions,
            deletions := nat0 file.deletions,
            changes := nat0 file.changes,
            status := file.status,
            patch := jsStrOr (file.patch.map fun s => s.take 2000) "" } }

/-- JS `String.prototype.startsWith` on the underlying character lists. -/
def charsStartWith : List Char → List Char → Bool
  | _, [] => true
  | [], _ :: _ => false
  | c :: cs, p :: ps => c == p && charsStartWith cs ps

/-- JS `String.prototype.includes` on the underlying character lists. -/
def charsInclude : List Char → List Char → Bool
  | [], pat => charsStartWith [] pat
  | c :: cs, pat => charsStartWith (c :: cs) pat || charsInclude cs pat

/-- JS `s.startsWith(pat)`. -/
def jsStartsWith (s pat : String) : Bool := charsStartWith s.data pat.data

/-- JS `s.includes(pat)`. -/
def jsIncludes (s pat : String) : Bool := charsInclude s.data pat.data

/-- ASCII lowering of one character (`A`-`Z` shift to `a`-`z`). -/
def lowerChar (c : Char) : Char :=
  if 65 ≤ c.toNat ∧ c.toNat ≤ 90 then Char.ofNat (c.toNat + 32) else c

/-- JS `s.toLowerCase()` on the underlying characters; the merge-heuristic
patterns it is compared against are ASCII. -/
def jsToLower (s : String) : String := ⟨s.data.map lowerChar⟩

/-- The merge-commit heuristic of `processSinglePR` (batch.service.ts lines
179-186): the lowercased message starts with `merge ` or contains
`merge branch` or `merge pull request`. -/
def isMergeMessage (c : TransformedCommit) : Bool :=
  let message := c.commit_message
  jsStartsWith (jsToLower message) "merge " ||
    jsIncludes (jsToLower message) "merge branch" ||
    jsIncludes (jsToLower message) "merge pull request"

/-- `c.raw_data?.parents?.length || 1`: a missing parents array, and an empty
one, both count as one parent. -/
def parentCountOf (c : TransformedCommit) : Nat :=
  orNat (c.raw_data.parents.map fun ps => ps.length) 1

/-- The `nonMergeCommits` filter (batch.service.ts lines 179-186):
`!isMerge && parentCount <= 1`. -/
def nonMergeCommits (commits : List TransformedCommit) : List TransformedCommit :=
  commits.filter fun c => !isMergeMessage c && decide (parentCountOf c ≤ 1)

/-- `effectiveCommits` (batch.service.ts line 188): the non-merge commits,
falling back to the full commit list when every commit looked like a merge. -/
def effectiveCommitsOf (commits : List TransformedCommit) : List TransformedCommit :=
  let nonMerge := nonMergeCommits commits
  if 0 < nonMerge.length then nonMerge else commits

/-- The review-driven change set (spec §3, `ReviewDrivenChangeSet`). -/
structure ReviewDrivenChanges where
  hasChanges : Bool
  totalCommits : Nat
  reviewCommitCount : Nat
  total_additions : Nat
  total_deletions : Nat
  total_changed_files : Nat
deriving DecidableEq

/-- Modelled from the spec: `GitHubService.buildReviewDrivenChanges` is
invoked by `BatchService.processSinglePR` (batch.service.ts lines 194 and
197) but its definition is not among the sources.  Spec §4.3: with more than
one effective commit the review diff is computed over the effective range
(here: from the comparison the caller fetched) and `hasChanges` is true; with
zero or one effective commits the result has `hasChanges = false` and zero
totals. -/
def buildReviewDrivenChanges (effective : List TransformedCommit)
    (comparison : Option Comparison) (prFileNames : List String) : ReviewDrivenChanges :=
  if 1 < effective.length then
    let files := (comparison.map fun comp => comp.files.getD []).getD []
    let relevant := files.filter fun f => prFileNames.contains f.filename
    { hasChanges := true,
      totalCommits := effective.length,
      reviewCommitCount := effective.length,
      total_additions := (relevant.map fun f => nat0 f.additions).sum,
      total_deletions := (relevant.map fun f => nat0 f.deletions).sum,
      total_changed_files := relevant.length }
  else
    { hasChanges := false,
      totalCommits := effective.length,
      reviewCommitCount := effective.length,
      total_additions := 0, total_deletions := 0, total_changed_files := 0 }

/-- The review-driven step of `processSinglePR` (batch.service.ts lines
188-199): with more than one effective commit the fetched comparison is used,
otherwise the builder is called with `null`. -/
def reviewChangesFor (commits : List TransformedCommit)
    (reviewComparison : Option Comparison) (prFileNames : List String) :
    ReviewDrivenChanges :=
  let eff := effectiveCommitsOf commits
  if 1 < eff.length then buildReviewDrivenChanges eff reviewComparison prFileNames
  else buildReviewDrivenChanges eff none prFileNames

/-- One raw issue comment: the fields `transformComments` reads. -/
structure RawComment where
  id : Nat
  userLogin : String
  body : String
  created_at : String
deriving DecidableEq

/-- One raw review: the fields `transformReviews` reads. -/
structure RawReview where
  id : Nat
  userLogin : String
  state : String
  body : Option String
  submitted_at : String
deriving DecidableEq

/-- Comment row produced by `GitHubService.transformComments`. -/
structure PRComment where
  pr_id : Nat
  comment_id : Nat
  author : String
  body : String
  created_at : String
  raw_data : RawComment
deriving DecidableEq

/-- Review row produced by `GitHubService.transformReviews`. -/
structure PRReview where
  pr_id : Nat
  review_id : Nat
  author : String
  state : String
  body : Option String
  submitted_at : String
  raw_data : RawReview
deriving DecidableEq

/-- `GitHubService.transformPRData` (github.service.ts lines 79-92). -/
def transformPRData (org repo : String) (prData : RawPR) : PullRequest :=
  { id := none,
    org := org,
    repo := repo,
    pr_number := prData.number,
    title := prData.title,
    description := jsOptOr prData.body none,
    author := prData.userLogin,
    state := prData.state,
    created_at := prData.created_at,
    updated_at := prData.updated_at,
    raw_data := prData }

/-- `GitHubService.transformComments` (github.service.ts lines 94-103). -/
def transformComments (prId : Nat) (commentsData : List RawComment) : List PRComment :=
  commentsData.map fun comment =>
    { pr_id := prId,
      comment_id := comment.id,
      author := comment.userLogin,
      body := comment.body,
      created_at := comment.created_at,
      raw_data := comment }

/-- `GitHubService.transformReviews` (github.service.ts lines 105-115). -/
def transformReviews (prId : Nat) (reviewsData : List RawReview) : List PRReview :=
  reviewsData.map fun review =>
    { pr_id := prId,
      review_id := review.id,
      author := review.userLogin,
      state := review.state,
      body := jsOptOr review.body none,
      submitted_at := review.submitted_at,
      raw_data := review }

/-- The raw bundle returned by `GitHubService.fetchPRData`. -/
structure GithubData where
  pr : RawPR
  comments : List RawComment
  reviews : List RawReview
  commits : List RawCommit
  files : List RawFile
deriving DecidableEq

/-- `PRAnalysisData` as passed to `OpenAIService.generatePRReport`; the two
diff rows read back from the database are opaque JSON. -/
structure PRAnalysisData where
  pr : PullRequest
  comments : List PRComment
  reviews : List PRReview
  commits : List TransformedCommit
  commitDiff : Option String
  reviewDrivenChanges : Option String

/-- One collaborator invocation made by the item pipeline. -/
inductive CollabCall where
  | dbGetPullRequest
  | dbGetReport
  | githubFetchPRData
  | dbSavePullRequest
  | dbSaveComment
  | dbSaveReview
  | githubGetCommit
  | dbSaveCommits
  | dbSaveLastCommitFiles
  | githubFetchComparison
  | dbSaveCommitDiff
  | githubFetchReviewDriven
  | dbSaveReviewDrivenChanges
  | dbGetCommitDiff
  | dbGetReviewDrivenChanges
  | llmGenerateReport
  | dbSaveReport
deriving DecidableEq

/-- Calls against the GitHub collaborator (octokit). -/
def isGitHubCall : CollabCall → Bool
  | .githubFetchPRData => true
  | .githubGetCommit => true
  | .githubFetchComparison => true
  | .githubFetchReviewDriven => true
  | _ => false

/-- Calls against the report-generation collaborator (OpenAI). -/
def isLLMCall : CollabCall → Bool
  | .llmGenerateReport => true
  | _ => false

/-- The external collaborators of the item pipeline, as oracles.  Fallible
network calls return `Except`; `fetchCommitComparison` and the per-commit
details fetch catch their own errors in the source and so return `Option`. -/
structure PipelineEnv where
  getPullRequest : String → String → Nat → Option PullRequest
  getReport : Nat → Option PRReport
  fetchPRData : String → String → Nat → Except String GithubData
  savePullRequest : PullRequest → Nat
  getCommit : String → String → String → Option CommitDetails
  fetchCommitComparison : String → String → String → String → Option Comparison
  fetchReviewDrivenChanges : String → String → String → String → Except String (Option Comparison)
  getCommitDiff : Nat → Option String
  getReviewDrivenChanges : Nat → Option String
  generatePRReport : PRAnalysisData → Except String String
  nowISO : String

/-- One iteration of the `transformCommits` loop (github.service.ts lines
117-176): sum file stats when present, prefer `commit.stats`, and when both
stats are zero and no files are attached fetch the commit details (errors of
that fetch are caught and ignored), also attaching the fetched files to the
raw commit.  Returns the transformed row, the possibly mutated raw commit,
and the extended call log. -/
def transformOneCommit (env : PipelineEnv) (org repo : String) (prId : Nat)
    (commit : RawCommit) (log : List CollabCall) :
    TransformedCommit × RawCommit × List CollabCall :=
  let fromFiles : Nat × Nat × Nat :=
    match commit.files with
    | some fs =>
        if 0 < fs.length then
          ((fs.map fun f => nat0 f.additions).sum,
            (fs.map fun f => nat0 f.deletions).sum,
            fs.length)
        else (0, 0, 0)
    | none => (0, 0, 0)
  let withStats : Nat × Nat × Nat :=
    match commit.stats with
    | some st => (orNat st.additions fromFiles.1, orNat st.deletions fromFiles.2.1,
        orNat st.total fromFiles.2.2)
    | none => fromFiles
  let a2 := withStats.1
  let d2 := withStats.2.1
  let cf2 := withStats.2.2
  let needFetch : Bool :=
    a2 == 0 && d2 == 0 &&
      (match commit.files with
       | none => true
       | some fs => fs.isEmpty)
  let logOut := if needFetch then log ++ [CollabCall.githubGetCommit] else log
  let fetched : Nat × Nat × Nat × RawCommit :=
    if needFetch then
      match env.getCommit org repo commit.sha with
      | some commitDetails =>
          match commitDetails.stats with
          | some st =>
              (orNat st.additions a2, orNat st.deletions d2,
                (match commitDetails.files with
                 | some dfs => if dfs.length = 0 then cf2 else dfs.length
                 | none => cf2),
                { commit with
                    files :=
                      match commitDetails.files with
                      | some dfs => some dfs
                      | none => commit.files })
          | none => (a2, d2, cf2, commit)
      | none => (a2, d2, cf2, commit)
    else (a2, d2, cf2, commit)
  let a3 := fetched.1
  let d3 := fetched.2.1
  let cf3 := fetched.2.2.1
  let commit2 := fetched.2.2.2
  ({ pr_id := prId,
     commit_sha := commit2.sha,
     commit_message := jsStrOr commit2.commitMessage (jsStrOr commit2.message ""),
     author_name := jsStrOr commit2.authorName (jsStrOr commit2.topAuthorName "Unknown"),
     author_email := jsStrOr commit2.authorEmail (jsStrOr commit2.topAuthorEmail ""),
     committed_at := jsOptOr commit2.authorDate (jsOptOr commit2.committerDate none),
     additions := a3,
     deletions := d3,
     changed_files := if cf3 = 0 then nat0 commit2.changed_files else cf3,
     raw_data := commit2 },
   commit2, logOut)

/-- `GitHubService.transformCommits` over the commit list, threading the call
log and collecting the possibly mutated raw commits. -/
def transformCommits (env : PipelineEnv) (org repo : String) (prId : Nat) :
    List RawCommit → List CollabCall →
      List TransformedCommit × List RawCommit × List CollabCall
  | [], log => ([], [], log)
  | c :: cs, log =>
      let step := transformOneCommit env org repo prId c log
      let rest := transformCommits env org repo prId cs step.2.2
      (step.1 :: rest.1, step.2.1 :: rest.2.1, rest.2.2)

/-- JS `new Set(xs)` materialised as a list: first-occurrence de-duplication
in insertion order. -/
def jsSetOfList : List String → List String :=
  fun l => l.foldl (fun acc s => if s ∈ acc then acc else acc ++ [s]) []

/-- JS truthiness of an optional numeric id: present and non-zero. -/
def truthyNat : Option Nat → Bool
  | some n => n != 0
  | none => false

/-- The commits section of `BatchService.processSinglePR` (batch.service.ts
lines 144-199), entered only when the fetched commit list is non-empty:
transform and save the commits, save the last commit's files, fetch the
base-head comparison and save the resulting diff summary (direct or
metadata fallback), then compute and save the review-driven change set,
fetching the effective-range comparison when more than one effective commit
remains.  Returns the transformed commits (or the raised error) and the
extended call log. -/
def commitsStage (env : PipelineEnv) (pr : PRRef) (prId : Nat)
    (githubData : GithubData) (log : List CollabCall) :
    Except String (List TransformedCommit) × List CollabCall :=
  if 0 < githubData.commits.length then
    let tc := transformCommits env pr.org pr.repo prId githubData.commits log
    let commits := tc.1
    let rawCommits := tc.2.1
    let log5 := tc.2.2 ++ [CollabCall.dbSaveCommits]
    let log6 :=
      if 0 < commits.length then
        let lastCommitRawData := rawCommits.getLast?
        let lastCommitFiles := buildLastCommitFiles lastCommitRawData githubData.files
        let _withPrId := { lastCommitFiles with pr_id := some prId }
        log5 ++ [CollabCall.dbSaveLastCommitFiles]
      else log5
    let log7 := log6 ++ [CollabCall.githubFetchComparison]
    let comparison :=
      env.fetchCommitComparison pr.org pr.repo githubData.pr.baseRef githubData.pr.headRef
    let _savedDiff : Sum CommitDiffSummary MetaDiffSummary :=
      match comparison with
      | some comp =>
          if 0 < (comp.files.getD []).length then Sum.inl (buildCommitDiffSummary comp)
          else Sum.inr (buildCommitDiffFromMetadata commits (some rawCommits)
            (some githubData.files))
      | none => Sum.inr (buildCommitDiffFromMetadata commits (some rawCommits)
          (some githubData.files))
    let log8 := log7 ++ [CollabCall.dbSaveCommitDiff]
    let prFileNames := jsSetOfList (githubData.files.map fun f => f.filename)
    let eff := effectiveCommitsOf commits
    if 1 < eff.length then
      let firstCommitSha := (eff.head?.map fun c => c.commit_sha).getD ""
      let lastCommitSha := (eff.getLast?.map fun c => c.commit_sha).getD ""
      let log9 := log8 ++ [CollabCall.githubFetchReviewDriven]
      match env.fetchReviewDrivenChanges pr.org pr.repo firstCommitSha lastCommitSha with
      | .error e => (.error e, log9)
      | .ok reviewComparison =>
          let _reviewChanges := buildReviewDrivenChanges eff reviewComparison prFileNames
          (.ok commits, log9 ++ [CollabCall.dbSaveReviewDrivenChanges])
    else
      let _noReviewChanges := buildReviewDrivenChanges eff none prFileNames
      (.ok commits, log8 ++ [CollabCall.dbSaveReviewDrivenChanges])
  else (.ok [], log)

/-- The non-cached path of `BatchService.processSinglePR` (batch.service.ts
lines 126-231): fetch the raw PR bundle, transform and persist every
sub-entity, run the commits stage above, generate and persist the report,
and re-read the saved rows.  Errors of fallible collaborators surface as
`Except.error` and are turned into a `Failure` row by the caller's catch
block. -/
def processFreshPR (env : PipelineEnv) (pr : PRRef) (log : List CollabCall) :
    Except String BatchResult × List CollabCall :=
  let log1 := log ++ [CollabCall.githubFetchPRData]
  match env.fetchPRData pr.org pr.repo pr.pr_number with
  | .error e => (.error e, log1)
  | .ok githubData =>
      let prData := transformPRData pr.org pr.repo githubData.pr
      let log2 := log1 ++ [CollabCall.dbSavePullRequest]
      let prId := env.savePullRequest prData
      let comments := transformComments prId githubData.comments
      let reviews := transformReviews prId githubData.reviews
      let log3 := log2 ++ comments.map fun _ => CollabCall.dbSaveComment
      let log4 := log3 ++ reviews.map fun _ => CollabCall.dbSaveReview
      match commitsStage env pr prId githubData log4 with
      | (.error e, logE) => (.error e, logE)
      | (.ok commits, logA) =>
          let logB := logA ++ [CollabCall.dbGetCommitDiff]
          let commitDiffData := env.getCommitDiff prId
          let logC := logB ++ [CollabCall.dbGetReviewDrivenChanges]
          let reviewDrivenChangesData := env.getReviewDrivenChanges prId
          let logD := logC ++ [CollabCall.llmGenerateReport]
          match env.generatePRReport
              { pr := prData, comments := comments, reviews := reviews,
                commits := commits, commitDiff := commitDiffData,
                reviewDrivenChanges := reviewDrivenChangesData } with
          | .error e => (.error e, logD)
          | .ok reportContent =>
              let logF := logD ++ [CollabCall.dbSaveReport]
              let _savedReport : PRReport :=
                { id := none, pr_id := prId, report_content := reportContent,
                  generated_at := env.nowISO }
              let logG := logF ++ [CollabCall.dbGetPullRequest]
              let savedPR := env.getPullRequest pr.org pr.repo pr.pr_number
              let logH := logG ++ [CollabCall.dbGetReport]
              let savedReport := env.getReport prId
              (.ok { org := pr.org, repo := pr.repo, pr_number := pr.pr_number,
                     success := true, pr := savedPR, report := savedReport }, logH)

/-- `BatchService.processSinglePR` (batch.service.ts lines 102-241): the
cache check short-circuits to `Success` when a pull-request row with a
truthy id and a report already exist; otherwise the fresh pipeline runs,
and any raised error is caught and returned as a `Failure` row with
`error.message || 'Failed to process PR'`.  Returns the result together
with the ordered list of collaborator calls made. -/
def processSinglePR (env : PipelineEnv) (pr : PRRef) :
    BatchResult × List CollabCall :=
  let log0 := [CollabCall.dbGetPullRequest]
  let cacheStep : Option (PullRequest × PRReport) × List CollabCall :=
    match env.getPullRequest pr.org pr.repo pr.pr_number with
    | some existingPR =>
        if truthyNat existingPR.id then
          let log1 := log0 ++ [CollabCall.dbGetReport]
          match env.getReport (existingPR.id.getD 0) with
          | some existingReport => (some (existingPR, existingReport), log1)
          | none => (none, log1)
        else (none, log0)
    | none => (none, log0)
  match cacheStep with
  | (some hit, logHit) =>
      ({ org := pr.org, repo := pr.repo, pr_number := pr.pr_number,
         success := true, pr := some hit.1, report := some hit.2 }, logHit)
  | (none, logMiss) =>
      match processFreshPR env pr logMiss with
      | (.ok r, logDone) => (r, logDone)
      | (.error e, logDone) =>
          ({ org := pr.org, repo := pr.repo, pr_number := pr.pr_number,
             success := false,
             error := some (if e.isEmpty then "Failed to process PR" else e) }, logDone)

/-- `BatchService.processSinglePRWithTimeout` (batch.service.ts lines
79-100): a timer of `prTimeoutMs` races the pipeline promise.  `duration pr`
is how long the pipeline call takes; when it exceeds the timer the promise
rejects with the descriptive timeout error and the pipeline call is left
running unobserved, otherwise it resolves with the pipeline result. -/
def processSinglePRWithTimeout (prTimeoutMs : Nat) (duration : PRRef → Nat)
    (env : PipelineEnv) (pr : PRRef) : Settled :=
  if prTimeoutMs < duration pr then
    Settled.rejected ("Timeout processing " ++ pr.org ++ "/" ++ pr.repo ++ "#" ++
      toString pr.pr_number)
  else
    Settled.fulfilled (processSinglePR env pr).1

/-! Concrete fixtures used to exercise the definitions at specific inputs. -/

/-- A pipeline environment whose collaborators hold no data and whose
fallible calls fail. -/
def envStub : PipelineEnv :=
  { getPullRequest := fun _ _ _ => none,
    getReport := fun _ => none,
    fetchPRData := fun _ _ _ => Except.error "network down",
    savePullRequest := fun _ => 1,
    getCommit := fun _ _ _ => none,
    fetchCommitComparison := fun _ _ _ _ => none,
    fetchReviewDrivenChanges := fun _ _ _ _ => Except.ok none,
    getCommitDiff := fun _ => none,
    getReviewDrivenChanges := fun _ => none,
    generatePRReport := fun _ => Except.error "llm down",
    nowISO := "2026-01-01T00:00:00Z" }

/-- Raw payload of the cached pull request below. -/
def rawCachedPR : RawPR :=
  { number := 1, title := "T", body := none, userLogin := "u", state := "open",
    created_at := "t1", updated_at := "t2", baseRef := "main", headRef := "f" }

/-- A stored pull-request row with id 5. -/
def cachedPR : PullRequest :=
  { id := some 5, org := "a", repo := "r", pr_number := 1, title := "T",
    description := none, author := "u", state := "open", created_at := "t1",
    updated_at := "t2", raw_data := rawCachedPR }

/-- A stored report for `cachedPR`. -/
def cachedReport : PRReport :=
  { id := some 9, pr_id := 5, report_content := "rep", generated_at := "t3" }

/-- An environment whose persistence layer already holds `cachedPR` and
`cachedReport`. -/
def envCached : PipelineEnv :=
  { envStub with
    getPullRequest := fun _ _ _ => some cachedPR
    getReport := fun _ => some cachedReport }

/-- A raw commit whose message is a merge-branch message. -/
def mergeRawCommit : RawCommit :=
  { sha := "s1", commitMessage := some "Merge branch x", message := none,
    authorName := none, topAuthorName := none, authorEmail := none,
    topAuthorEmail := none, authorDate := none, committerDate := none,
    files := none, stats := none, parents := none, changed_files := none }

/-- First merge commit of the all-merge pull request. -/
def mergeCommit1 : TransformedCommit :=
  { pr_id := 1, commit_sha := "s1", commit_message := "Merge branch x",
    author_name := "A", author_email := "", committed_at := none,
    additions := 0, deletions := 0, changed_files := 0, raw_data := mergeRawCommit }

/-- Second merge commit of the all-merge pull request. -/
def mergeCommit2 : TransformedCommit :=
  { mergeCommit1 with
    commit_sha := "s2"
    commit_message := "Merge pull request #5" }

/-- An ordinary single commit. -/
def plainCommit : TransformedCommit :=
  { mergeCommit1 with
    commit_sha := "s3"
    commit_message := "add feature" }

/-- A raw file touched by two different commits. -/
def sharedFile : RawFile :=
  { filename := "a.txt", additions := some 1, deletions := some 0,
    changes := some 1, status := "modified", patch := none }

/-- The same file as first introduced (status `added`). -/
def sharedFileAdded : RawFile :=
  { sharedFile with status := "added" }

/-- Raw commit touching `sharedFile` (first of two). -/
def rawCommitOne : RawCommit :=
  { mergeRawCommit with
    sha := "c1"
    commitMessage := some "one"
    files := some [sharedFile] }

/-- Raw commit touching `sharedFile` (second of two). -/
def rawCommitTwo : RawCommit :=
  { mergeRawCommit with
    sha := "c2"
    commitMessage := some "two"
    files := some [sharedFile] }

/-- Raw commit introducing `sharedFile` with status `added`. -/
def rawCommitAdd : RawCommit :=
  { mergeRawCommit with
    sha := "cA"
    commitMessage := some "add"
    files := some [sharedFileAdded] }

/-- Transformed row of `rawCommitOne`. -/
def commitRowOne : TransformedCommit :=
  { pr_id := 1, commit_sha := "c1", commit_message := "one", author_name := "A",
    author_email := "", committed_at := none, additions := 1, deletions := 0,
    changed_files := 1, raw_data := rawCommitOne }

/-- Transformed row of `rawCommitTwo`. -/
def commitRowTwo : TransformedCommit :=
  { commitRowOne with
    commit_sha := "c2"
    commit_message := "two"
    raw_data := rawCommitTwo }

/-- The reference `a/r#1`. -/
def refAR : PRRef := { org := "a", repo := "r", pr_number := 1 }

/-- The failure row the scheduler records when `a/r#1` times out. -/
def timeoutRowAR : BatchResult :=
  { org := "a", repo := "r", pr_number := 1, success := false,
    error := some "Timeout processing a/r#1" }

/-- Lookup in the `filesChanged` object by filename
(`filesChanged[file.filename]`). -/
def fcFind (m : List MetaFileChange) (name : String) : Option MetaFileChange :=
  m.find? fun g => g.filename == name

/-- All commit file entries in commit order — the stream of
`commitData.files.forEach` steps branch 3 performs. -/
def flatCommitFiles : List RawCommit → List RawFile
  | [] => []
  | c :: cs => c.files.getD [] ++ flatCommitFiles cs

theorem numWaves_nil (C : Nat) : numWaves C 0 = 0 := by
  unfold numWaves
  cases C with
  | zero => rfl
  | succ c => exact Nat.div_eq_of_lt (by omega)

theorem numWaves_pos (C N : Nat) (hC : 0 < C) (hN : 0 < N) : 0 < numWaves C N :=
  Nat.div_pos (by omega) hC

theorem numWaves_succ (C N : Nat) (hC : 0 < C) (hN : 0 < N) :
    numWaves C N = numWaves C (N - C) + 1 := by
  unfold numWaves
  have h1 : N + C - 1 = (N - 1) + C := by omega
  rw [h1, Nat.add_div_right _ hC]
  rcases Nat.le_total N C with h | h
  · have h2 : N - C = 0 := by omega
    rw [h2]
    have h3 : (0 + C - 1) / C = 0 := Nat.div_eq_of_lt (by omega)
    have h4 : (N - 1) / C = 0 := Nat.div_eq_of_lt (by omega)
    omega
  · have h2 : N - C + C - 1 = N - 1 := by omega
    rw [h2]

theorem settleChunk_length (outcome : PRRef → Settled) (l : List PRRef) :
    (settleChunk outcome l).length = l.length := List.length_map l _

theorem settleChunk_append (outcome : PRRef → Settled) (l1 l2 : List PRRef) :
    settleChunk outcome (l1 ++ l2) = settleChunk outcome l1 ++ settleChunk outcome l2 :=
  List.map_append _ l1 l2

theorem wavesGo_progressCounts (C batchTimeoutMs : Nat) (hC : 0 < C)
    (elapsed : Nat → Nat) (outcome : PRRef → Settled) :
    ∀ (fuel : Nat) (rem : List PRRef) (k : Nat) (acc : List BatchResult),
      rem.length ≤ fuel →
      (∀ j < numWaves C rem.length, elapsed (k + j) ≤ batchTimeoutMs) →
      progressCounts (wavesGo C batchTimeoutMs elapsed outcome fuel rem k acc) =
        (List.range (numWaves C rem.length)).map
          (fun j => acc.length + min ((j + 1) * C) rem.length) := by
  intro fuel
  induction fuel with
  | zero =>
      intro rem k acc hle _
      have hnil : rem = [] := List.eq_nil_of_length_eq_zero (by omega)
      subst hnil
      simp [wavesGo, progressCounts, numWaves_nil]
  | succ fuel ih =>
      intro rem k acc hle hdl
      match rem with
      | [] => simp [wavesGo, progressCounts, numWaves_nil]
      | p :: rest =>
          have hN : 0 < (p :: rest).length := by simp
          have hW : 0 < numWaves C (p :: rest).length := numWaves_pos _ _ hC hN
          have h0 : elapsed k ≤ batchTimeoutMs := by simpa using hdl 0 hW
          have hfuel2 : ((p :: rest).drop C).length ≤ fuel := by
            rw [List.length_drop]
            simp only [List.length_cons] at hle ⊢
            omega
          have hdl2 : ∀ j < numWaves C ((p :: rest).drop C).length,
              elapsed (k + 1 + j) ≤ batchTimeoutMs := by
            intro j hj
            have hj2 : j + 1 < numWaves C (p :: rest).length := by
              rw [numWaves_succ C _ hC hN]
              rw [List.length_drop] at hj
              omega
            have hstep := hdl (j + 1) hj2
            have harith : k + (j + 1) = k + 1 + j := by omega
            rwa [harith] at hstep
          have ihe := ih ((p :: rest).drop C) (k + 1)
            (acc ++ settleChunk outcome ((p :: rest).take C)) hfuel2 hdl2
          rw [wavesGo, if_neg (by omega)]
          simp only [progressCounts, List.filterMap_cons] at ihe ⊢
          rw [ihe]
          rw [numWaves_succ C (p :: rest).length hC hN, List.range_succ_eq_map,
            List.map_cons, List.map_map]
          rw [List.length_drop]
          congr 1
          · simp [settleChunk_length, List.length_take]
          · apply List.map_congr_left
            intro j _
            simp only [Function.comp, settleChunk_length, List.length_append,
              List.length_take]
            have hmul : (j + 1 + 1) * C = (j + 1) * C + C := by ring
            rw [hmul]
            generalize (j + 1) * C = m
            simp only [List.length_cons]
            omega

theorem foldl_wavesGo_complete (C batchTimeoutMs : Nat) (hC : 0 < C)
    (elapsed : Nat → Nat) (outcome : PRRef → Settled) :
    ∀ (fuel : Nat) (rem : List PRRef) (k : Nat) (acc : List BatchResult) (s : StoreState),
      rem.length < fuel →
      (∀ j < numWaves C rem.length, elapsed (k + j) ≤ batchTimeoutMs) →
      List.foldl applyOp s (wavesGo C batchTimeoutMs elapsed outcome fuel rem k acc) =
        { status := "completed",
          completed_count :=
            if rem = [] then s.completed_count
            else (acc ++ settleChunk outcome rem).length,
          results := acc ++ settleChunk outcome rem,
          error_message := s.error_message } := by
  intro fuel
  induction fuel with
  | zero =>
      intro rem k acc s hle _
      exact absurd hle (Nat.not_lt_zero _)
  | succ fuel ih =>
      intro rem k acc s hle hdl
      match rem with
      | [] => simp [wavesGo, applyOp, settleChunk]
      | p :: rest =>
          have hN : 0 < (p :: rest).length := by simp
          have hW : 0 < numWaves C (p :: rest).length := numWaves_pos _ _ hC hN
          have h0 : elapsed k ≤ batchTimeoutMs := by simpa using hdl 0 hW
          have hfuel2 : ((p :: rest).drop C).length < fuel := by
            rw [List.length_drop]
            simp only [List.length_cons] at hle ⊢
            omega
          have hdl2 : ∀ j < numWaves C ((p :: rest).drop C).length,
              elapsed (k + 1 + j) ≤ batchTimeoutMs := by
            intro j hj
            have hj2 : j + 1 < numWaves C (p :: rest).length := by
              rw [numWaves_succ C _ hC hN]
              rw [List.length_drop] at hj
              omega
            have hstep := hdl (j + 1) hj2
            have harith : k + (j + 1) = k + 1 + j := by omega
            rwa [harith] at hstep
          rw [wavesGo, if_neg (by omega)]
          simp only [List.foldl_cons]
          rw [ih ((p :: rest).drop C) (k + 1)
            (acc ++ settleChunk outcome ((p :: rest).take C))
            (applyOp s (DBOp.progress
              (acc ++ settleChunk outcome ((p :: rest).take C)).length
              (acc ++ settleChunk outcome ((p :: rest).take C)))) hfuel2 hdl2]
          have hsplit : acc ++ settleChunk outcome ((p :: rest).take C) ++
              settleChunk outcome ((p :: rest).drop C) =
              acc ++ settleChunk outcome (p :: rest) := by
            rw [List.append_assoc, ← settleChunk_append, List.take_append_drop]
          by_cases hdropnil : (p :: rest).drop C = []
          · have htake : (p :: rest).take C = p :: rest := by
              have hlen : (p :: rest).length ≤ C := by
                have hdl3 := List.length_drop C (p :: rest)
                rw [hdropnil] at hdl3
                simp only [List.length_nil] at hdl3
                omega
              exact List.take_of_length_le hlen
            simp [hdropnil, applyOp, htake, settleChunk]
          · rw [if_neg hdropnil]
            simp only [applyOp]
            rw [hsplit]
            simp

theorem foldl_wavesGo_deadline (C batchTimeoutMs : Nat) (hC : 0 < C)
    (elapsed : Nat → Nat) (outcome : PRRef → Settled) :
    ∀ (w fuel : Nat) (rem : List PRRef) (k : Nat) (acc : List BatchResult) (s : StoreState),
      rem.length ≤ fuel →
      s.results = acc →
      s.completed_count = acc.length →
      (∀ j < w, elapsed (k + j) ≤ batchTimeoutMs) →
      batchTimeoutMs < elapsed (k + w) →
      w * C < rem.length →
      List.foldl applyOp s (wavesGo C batchTimeoutMs elapsed outcome fuel rem k acc) =
        { status := "failed",
          completed_count := (acc ++ settleChunk outcome (rem.take (w * C))).length,
          results := acc ++ settleChunk outcome (rem.take (w * C)),
          error_message := some "Batch processing timeout exceeded" } := by
  intro w
  induction w with
  | zero =>
      intro fuel rem k acc s hle hres hcnt _ hat hw
      simp only [Nat.zero_mul] at hw ⊢
      match rem, fuel with
      | p :: rest, fuel + 1 =>
          rw [wavesGo, if_pos (by simpa using hat)]
          simp only [List.foldl_cons, List.foldl_nil, applyOp, List.take_zero,
            settleChunk, List.map_nil, List.append_nil]
          cases s
          simp_all
      | p :: rest, 0 => simp at hle
  | succ w ih =>
      intro fuel rem k acc s hle hres hcnt hbefore hat hw
      match rem, fuel with
      | p :: rest, 0 => simp at hle
      | p :: rest, fuel + 1 =>
          have h0 : elapsed k ≤ batchTimeoutMs := by simpa using hbefore 0 (by omega)
          rw [wavesGo, if_neg (by omega)]
          simp only [List.foldl_cons]
          have hfuel2 : ((p :: rest).drop C).length ≤ fuel := by
            rw [List.length_drop]
            simp only [List.length_cons] at hle ⊢
            omega
          have hbefore2 : ∀ j < w, elapsed (k + 1 + j) ≤ batchTimeoutMs := by
            intro j hj
            have hstep := hbefore (j + 1) (by omega)
            have harith : k + (j + 1) = k + 1 + j := by omega
            rwa [harith] at hstep
          have hat2 : batchTimeoutMs < elapsed (k + 1 + w) := by
            have harith : k + (w + 1) = k + 1 + w := by omega
            rwa [harith] at hat
          have hw2 : w * C < ((p :: rest).drop C).length := by
            rw [List.length_drop]
            have hm : (w + 1) * C = w * C + C := by ring
            rw [hm] at hw
            simp only [List.length_cons] at hw ⊢
            omega
          rw [ih fuel ((p :: rest).drop C) (k + 1)
            (acc ++ settleChunk outcome ((p :: rest).take C))
            (applyOp s (DBOp.progress
              (acc ++ settleChunk outcome ((p :: rest).take C)).length
              (acc ++ settleChunk outcome ((p :: rest).take C))))
            hfuel2 (by simp [applyOp]) (by simp [applyOp]) hbefore2 hat2 hw2]
          have hsplit : acc ++ settleChunk outcome ((p :: rest).take C) ++
              settleChunk outcome (((p :: rest).drop C).take (w * C)) =
              acc ++ settleChunk outcome ((p :: rest).take ((w + 1) * C)) := by
            rw [List.append_assoc, ← settleChunk_append]
            have hm : (w + 1) * C = C + w * C := by ring
            rw [hm, List.take_add]
          rw [hsplit]

theorem resultsWrites_chain (C batchTimeoutMs : Nat) (elapsed : Nat → Nat)
    (outcome : PRRef → Settled) :
    ∀ (fuel : Nat) (rem : List PRRef) (k : Nat) (acc : List BatchResult),
      List.Chain' (fun a b => ∃ t, b = a ++ t)
        (acc :: resultsWrites (wavesGo C batchTimeoutMs elapsed outcome fuel rem k acc)) := by
  intro fuel
  induction fuel with
  | zero =>
      intro rem k acc
      simp [wavesGo, resultsWrites]
  | succ fuel ih =>
      intro rem k acc
      match rem with
      | [] =>
          simp only [wavesGo, resultsWrites, List.filterMap_cons, List.filterMap_nil]
          exact List.Chain'.cons ⟨[], by simp⟩ (List.chain'_singleton _)
      | p :: rest =>
          by_cases hto : batchTimeoutMs < elapsed k
          · rw [wavesGo, if_pos hto]
            simp [resultsWrites]
          · rw [wavesGo, if_neg hto]
            simp only [resultsWrites, List.filterMap_cons]
            exact List.Chain'.cons ⟨settleChunk outcome ((p :: rest).take C), rfl⟩
              (ih ((p :: rest).drop C) (k + 1) _)

theorem progressCounts_chain (C batchTimeoutMs : Nat) (elapsed : Nat → Nat)
    (outcome : PRRef → Settled) :
    ∀ (fuel : Nat) (rem : List PRRef) (k : Nat) (acc : List BatchResult),
      List.Chain' (fun a b => a ≤ b)
        (acc.length :: progressCounts (wavesGo C batchTimeoutMs elapsed outcome fuel rem k acc)) := by
  intro fuel
  induction fuel with
  | zero =>
      intro rem k acc
      simp [wavesGo, progressCounts]
  | succ fuel ih =>
      intro rem k acc
      match rem with
      | [] => simp [wavesGo, progressCounts]
      | p :: rest =>
          by_cases hto : batchTimeoutMs < elapsed k
          · rw [wavesGo, if_pos hto]
            simp [progressCounts]
          · rw [wavesGo, if_neg hto]
            simp only [progressCounts, List.filterMap_cons]
            refine List.Chain'.cons ?_ ?_
            · simp
            · exact ih ((p :: rest).drop C) (k + 1) _

theorem getLastD_cons (x d : List BatchResult) (l : List (List BatchResult)) :
    ((x :: l).getLast?).getD d = (l.getLast?).getD x := by
  cases l with
  | nil => simp
  | cons y l2 =>
      rw [List.getLast?_cons_cons]
      obtain ⟨z, hz⟩ := Option.isSome_iff_exists.mp
        (List.getLast?_isSome.mpr (List.cons_ne_nil y l2))
      simp [hz]

theorem foldl_applyOp_results :
    ∀ (ops : List DBOp) (s : StoreState),
      (List.foldl applyOp s ops).results = ((resultsWrites ops).getLast?).getD s.results := by
  intro ops
  induction ops with
  | nil => intro s; simp [resultsWrites]
  | cons op t ih =>
      intro s
      cases op with
      | start =>
          simp only [List.foldl_cons, resultsWrites, List.filterMap_cons]
          rw [ih]
          rfl
      | fail msg =>
          simp only [List.foldl_cons, resultsWrites, List.filterMap_cons]
          rw [ih]
          rfl
      | progress n rs =>
          simp only [List.foldl_cons, resultsWrites, List.filterMap_cons]
          rw [ih, getLastD_cons]
          rfl
      | complete rs =>
          simp only [List.foldl_cons, resultsWrites, List.filterMap_cons]
          rw [ih, getLastD_cons]
          rfl

theorem wavesGo_writes_shape (C batchTimeoutMs : Nat) (elapsed : Nat → Nat)
    (outcome : PRRef → Settled) :
    ∀ (fuel : Nat) (rem : List PRRef) (k : Nat) (acc : List BatchResult)
      (rs : List BatchResult),
      rs ∈ resultsWrites (wavesGo C batchTimeoutMs elapsed outcome fuel rem k acc) →
      ∃ m, rs = acc ++ settleChunk outcome (rem.take m) := by
  intro fuel
  induction fuel with
  | zero =>
      intro rem k acc rs hmem
      simp [wavesGo, resultsWrites] at hmem
  | succ fuel ih =>
      intro rem k acc rs hmem
      match rem with
      | [] =>
          simp only [wavesGo, resultsWrites, List.filterMap_cons, List.filterMap_nil,
            List.mem_singleton] at hmem
          exact ⟨0, by simp [hmem, settleChunk]⟩
      | p :: rest =>
          by_cases hto : batchTimeoutMs < elapsed k
          · rw [wavesGo, if_pos hto] at hmem
            simp [resultsWrites] at hmem
          · rw [wavesGo, if_neg hto] at hmem
            simp only [resultsWrites, List.filterMap_cons, List.mem_cons] at hmem
            rcases hmem with h | h
            · exact ⟨C, by simp [h]⟩
            · obtain ⟨m, hm⟩ := ih ((p :: rest).drop C) (k + 1) _ rs h
              refine ⟨C + m, ?_⟩
              rw [hm, List.take_add, settleChunk_append, List.append_assoc]

/-- C1: for a list of N references and concurrency limit C > 0, `processBatch`
runs exactly ⌈N/C⌉ consecutive waves and — provided the batch deadline is
never exceeded — flushes the completed count to the Progress Store exactly
once per wave, the k-th flush (1-based) carrying exactly min(k·C, N). -/
theorem claim1_wave_progress (C batchTimeoutMs : Nat) (elapsed : Nat → Nat)
    (outcome : PRRef → Settled) (prList : List PRRef) (hC : 0 < C)
    (hdl : ∀ k < numWaves C prList.length, elapsed k ≤ batchTimeoutMs) :
    progressCounts (processBatch C batchTimeoutMs elapsed outcome prList) =
      (List.range (numWaves C prList.length)).map
        (fun k => min ((k + 1) * C) prList.length) := by
  have h := wavesGo_progressCounts C batchTimeoutMs hC elapsed outcome
    (prList.length + 1) prList 0 [] (by omega)
    (by intro j hj; simpa using hdl j hj)
  unfold processBatch
  simp only [progressCounts, List.filterMap_cons] at h ⊢
  simpa using h

/-- Witness for C1: three references at concurrency 2 give two waves with
flushed counts [2, 3]. -/
theorem claim1_wave_progress_witness :
    progressCounts (processBatch 2 900000 (fun _ => 0)
      (fun _ => Settled.rejected "boom")
      [⟨"a", "r", 1⟩, ⟨"a", "r", 2⟩, ⟨"a", "r", 3⟩]) = [2, 3] :=
  (claim1_wave_progress 2 900000 (fun _ => 0) (fun _ => Settled.rejected "boom")
    [⟨"a", "r", 1⟩, ⟨"a", "r", 2⟩, ⟨"a", "r", 3⟩] (by decide) (by decide)).trans
    (by decide)

/-- C3: if the deadline check trips before wave w (all earlier checks passed,
and wave w exists), the batch ends failed with the descriptive reason, the
persisted result list is exactly the settled results of the w completed waves
— w·C entries, the never-started items simply absent — strictly fewer than N. -/
theorem claim3_deadline_failure (C batchTimeoutMs : Nat) (elapsed : Nat → Nat)
    (outcome : PRRef → Settled) (prList : List PRRef) (w : Nat) (hC : 0 < C)
    (hbefore : ∀ j < w, elapsed j ≤ batchTimeoutMs)
    (hat : batchTimeoutMs < elapsed w)
    (hw : w * C < prList.length) :
    (runStore (processBatch C batchTimeoutMs elapsed outcome prList)).status = "failed" ∧
    (runStore (processBatch C batchTimeoutMs elapsed outcome prList)).error_message =
      some "Batch processing timeout exceeded" ∧
    (runStore (processBatch C batchTimeoutMs elapsed outcome prList)).results =
      settleChunk outcome (prList.take (w * C)) ∧
    (runStore (processBatch C batchTimeoutMs elapsed outcome prList)).results.length =
      w * C ∧
    (runStore (processBatch C batchTimeoutMs elapsed outcome prList)).results.length <
      prList.length := by
  have hfold := foldl_wavesGo_deadline C batchTimeoutMs hC elapsed outcome w
    (prList.length + 1) prList 0 [] (applyOp initialStore DBOp.start)
    (by omega) (by rfl) (by rfl)
    (by intro j hj; simpa using hbefore j hj)
    (by simpa using hat) hw
  have hrun : runStore (processBatch C batchTimeoutMs elapsed outcome prList) =
      { status := "failed",
        completed_count := ([] ++ settleChunk outcome (prList.take (w * C))).length,
        results := [] ++ settleChunk outcome (prList.take (w * C)),
        error_message := some "Batch processing timeout exceeded" } := by
    unfold runStore processBatch
    rw [List.foldl_cons]
    exact hfold
  have hlen : (settleChunk outcome (prList.take (w * C))).length = w * C := by
    rw [settleChunk_length, List.length_take]
    omega
  refine ⟨by rw [hrun], by rw [hrun], by rw [hrun]; simp, ?_, ?_⟩
  · rw [hrun]
    simpa using hlen
  · rw [hrun]
    simp only [List.nil_append]
    omega

/-- Witness for C3: two references at concurrency 1 with the clock past the
deadline before wave 1: the batch fails holding exactly the first wave's
result. -/
theorem claim3_deadline_failure_witness :
    (runStore (processBatch 1 0 (fun k => k) (fun _ => Settled.rejected "x")
      [⟨"a", "r", 1⟩, ⟨"a", "r", 2⟩])).status = "failed" ∧
    (runStore (processBatch 1 0 (fun k => k) (fun _ => Settled.rejected "x")
      [⟨"a", "r", 1⟩, ⟨"a", "r", 2⟩])).results.length = 1 := by
  have h := claim3_deadline_failure 1 0 (fun k => k) (fun _ => Settled.rejected "x")
    [⟨"a", "r", 1⟩, ⟨"a", "r", 2⟩] 1 (by decide) (by decide) (by decide) (by decide)
  exact ⟨h.1, h.2.2.2.1⟩

/-- C5: with the deadline never exceeded, every item of the input produces
exactly one entry in the final result list (the pointwise settle of that
item), and that entry depends only on the item's own outcome: two outcome
assignments that agree away from a single reference settle identically on
every other reference, so one item's failure or timeout never removes,
replaces or alters a sibling's entry. -/
theorem claim5_isolation (C batchTimeoutMs : Nat) (elapsed : Nat → Nat)
    (f g : PRRef → Settled) (prList : List PRRef) (r0 : PRRef) (hC : 0 < C)
    (hagree : ∀ r, r ≠ r0 → f r = g r)
    (hdl : ∀ k < numWaves C prList.length, elapsed k ≤ batchTimeoutMs) :
    (runStore (processBatch C batchTimeoutMs elapsed f prList)).status = "completed" ∧
    (runStore (processBatch C batchTimeoutMs elapsed f prList)).results =
      prList.map (settleOne f) ∧
    ∀ r ∈ prList, r ≠ r0 → settleOne f r = settleOne g r := by
  have hfold := foldl_wavesGo_complete C batchTimeoutMs hC elapsed f
    (prList.length + 1) prList 0 [] (applyOp initialStore DBOp.start) (by omega)
    (by intro j hj; simpa using hdl j hj)
  have hrun : runStore (processBatch C batchTimeoutMs elapsed f prList) =
      { status := "completed",
        completed_count :=
          if prList = [] then (applyOp initialStore DBOp.start).completed_count
          else ([] ++ settleChunk f prList).length,
        results := [] ++ settleChunk f prList,
        error_message := (applyOp initialStore DBOp.start).error_message } := by
    unfold runStore processBatch
    rw [List.foldl_cons]
    exact hfold
  refine ⟨by rw [hrun], ?_, ?_⟩
  · rw [hrun]
    simp [settleChunk]
  · intro r _ hne
    unfold settleOne
    rw [hagree r hne]

/-- Witness for C5: a single-item batch completes with its own settled
result. -/
theorem claim5_isolation_witness :
    (runStore (processBatch 2 10 (fun _ => 0) (fun _ => Settled.rejected "x")
      [⟨"a", "r", 1⟩])).status = "completed" ∧
    (runStore (processBatch 2 10 (fun _ => 0) (fun _ => Settled.rejected "x")
      [⟨"a", "r", 1⟩])).results =
      [⟨"a", "r", 1⟩].map (settleOne (fun _ => Settled.rejected "x")) := by
  have h := claim5_isolation 2 10 (fun _ => 0) (fun _ => Settled.rejected "x")
    (fun _ => Settled.rejected "x") [⟨"a", "r", 1⟩] ⟨"z", "z", 9⟩ (by decide)
    (fun _ _ => rfl) (by decide)
  exact ⟨h.1, h.2.1⟩

/-- C9: over any single run — completing or failing, any timing — the flushed
completed counts are monotonically non-decreasing, every written result list
extends the previous write, and the row's final result list is the last list
flushed (a failing batch keeps every result flushed before the failure, since
`failBatch` does not touch `results`). -/
theorem claim9_append_only (C batchTimeoutMs : Nat) (elapsed : Nat → Nat)
    (outcome : PRRef → Settled) (prList : List PRRef) :
    List.Chain' (fun a b => ∃ t, b = a ++ t)
      (resultsWrites (processBatch C batchTimeoutMs elapsed outcome prList)) ∧
    List.Chain' (fun a b => a ≤ b)
      (progressCounts (processBatch C batchTimeoutMs elapsed outcome prList)) ∧
    (runStore (processBatch C batchTimeoutMs elapsed outcome prList)).results =
      ((resultsWrites (processBatch C batchTimeoutMs elapsed outcome
        prList)).getLast?).getD [] := by
  refine ⟨?_, ?_, ?_⟩
  · have h := resultsWrites_chain C batchTimeoutMs elapsed outcome
      (prList.length + 1) prList 0 []
    have h2 : resultsWrites (processBatch C batchTimeoutMs elapsed outcome prList) =
        resultsWrites (wavesGo C batchTimeoutMs elapsed outcome
          (prList.length + 1) prList 0 []) := by
      simp [processBatch, resultsWrites]
    rw [h2]
    exact h.tail
  · have h := progressCounts_chain C batchTimeoutMs elapsed outcome
      (prList.length + 1) prList 0 []
    have h2 : progressCounts (processBatch C batchTimeoutMs elapsed outcome prList) =
        progressCounts (wavesGo C batchTimeoutMs elapsed outcome
          (prList.length + 1) prList 0 []) := by
      simp [processBatch, progressCounts]
    rw [h2]
    exact h.tail
  · unfold runStore processBatch
    rw [List.foldl_cons, foldl_applyOp_results]
    have h2 : resultsWrites (DBOp.start :: wavesGo C batchTimeoutMs elapsed outcome
        (prList.length + 1) prList 0 []) =
        resultsWrites (wavesGo C batchTimeoutMs elapsed outcome
          (prList.length + 1) prList 0 []) := by
      simp [resultsWrites]
    rw [h2]
    rfl

theorem processFreshPR_ok_refs (env : PipelineEnv) (pr : PRRef) (log : List CollabCall)
    (r : BatchResult) (lg : List CollabCall)
    (h : processFreshPR env pr log = (Except.ok r, lg)) :
    r.org = pr.org ∧ r.repo = pr.repo ∧ r.pr_number = pr.pr_number := by
  simp only [processFreshPR] at h
  split at h
  · simp at h
  · split at h
    · simp at h
    · split at h
      · simp at h
      · simp only [Prod.mk.injEq, Except.ok.injEq] at h
        obtain ⟨h1, _⟩ := h
        subst h1
        exact ⟨rfl, rfl, rfl⟩

theorem processSinglePR_refs (env : PipelineEnv) (pr : PRRef) :
    ((processSinglePR env pr).1).org = pr.org ∧
    ((processSinglePR env pr).1).repo = pr.repo ∧
    ((processSinglePR env pr).1).pr_number = pr.pr_number := by
  simp only [processSinglePR]
  split
  · exact ⟨rfl, rfl, rfl⟩
  · split
    · next r logDone heq => exact processFreshPR_ok_refs env pr _ r logDone heq
    · exact ⟨rfl, rfl, rfl⟩

/-- C2: when the persistence layer already holds a pull-request row with a
truthy id and a report for it, `processSinglePR` returns `Success` carrying
exactly the stored row and report, its collaborator trace is just the two
cache reads, and in particular neither the GitHub collaborator nor the
report generator is invoked. -/
theorem claim2_cache_hit (env : PipelineEnv) (pr : PRRef) (p : PullRequest)
    (rep : PRReport)
    (hpr : env.getPullRequest pr.org pr.repo pr.pr_number = some p)
    (hid : truthyNat p.id = true)
    (hrep : env.getReport (p.id.getD 0) = some rep) :
    processSinglePR env pr =
      ({ org := pr.org, repo := pr.repo, pr_number := pr.pr_number,
         success := true, pr := some p, report := some rep },
       [CollabCall.dbGetPullRequest, CollabCall.dbGetReport]) ∧
    (processSinglePR env pr).2.countP (fun c => isGitHubCall c) = 0 ∧
    (processSinglePR env pr).2.countP (fun c => isLLMCall c) = 0 := by
  have hmain : processSinglePR env pr =
      ({ org := pr.org, repo := pr.repo, pr_number := pr.pr_number,
         success := true, pr := some p, report := some rep },
       [CollabCall.dbGetPullRequest, CollabCall.dbGetReport]) := by
    simp [processSinglePR, hpr, hid, hrep]
  refine ⟨hmain, ?_, ?_⟩ <;> rw [hmain] <;> simp [isGitHubCall, isLLMCall]

/-- Witness for C2: an environment holding `cachedPR` and `cachedReport`
short-circuits with exactly two persistence reads. -/
theorem claim2_cache_hit_witness :
    processSinglePR envCached ⟨"a", "r", 1⟩ =
      ({ org := "a", repo := "r", pr_number := 1,
         success := true, pr := some cachedPR, report := some cachedReport },
       [CollabCall.dbGetPullRequest, CollabCall.dbGetReport]) :=
  (claim2_cache_hit envCached ⟨"a", "r", 1⟩ cachedPR cachedReport rfl
    (by decide) rfl).1

theorem timeoutMsg_ne_empty (a b : String) (n : Nat) :
    ("Timeout processing " ++ a ++ "/" ++ b ++ "#" ++ toString n).isEmpty = false := by
  rw [Bool.eq_false_iff]
  intro hemp
  have hemp2 := (String.isEmpty_iff _).mp hemp
  have hd := congrArg String.data hemp2
  simp only [String.data_append] at hd
  simp [List.append_eq_nil] at hd

theorem settleOne_timeout_refs (prTimeoutMs : Nat) (duration : PRRef → Nat)
    (env : PipelineEnv) (pr : PRRef) :
    (settleOne (processSinglePRWithTimeout prTimeoutMs duration env) pr).org = pr.org ∧
    (settleOne (processSinglePRWithTimeout prTimeoutMs duration env) pr).repo = pr.repo ∧
    (settleOne (processSinglePRWithTimeout prTimeoutMs duration env) pr).pr_number =
      pr.pr_number := by
  unfold settleOne processSinglePRWithTimeout
  by_cases h : prTimeoutMs < duration pr
  · rw [if_pos h]
    exact ⟨rfl, rfl, rfl⟩
  · rw [if_neg h]
    exact processSinglePR_refs env pr

/-- C4 counterexample: an item whose pipeline takes 70 s against the 60 s
per-item timer is recorded as a failure whose reason is the descriptive
string `Timeout processing acme/web#7` — not the string `timeout` the claim
prescribes. -/
theorem claim4_counterexample :
    (runStore (processBatch 2 900000 (fun _ => 0)
      (processSinglePRWithTimeout 60000 (fun _ => 70000) envStub)
      [⟨"acme", "web", 7⟩])).results =
      [{ org := "acme", repo := "web", pr_number := 7, success := false,
         error := some "Timeout processing acme/web#7" }] ∧
    ("Timeout processing acme/web#7" : String) ≠ "timeout" := by
  constructor
  · decide
  · decide

/-- C4 as amended: when an item's processing exceeds the per-item timeout the
scheduler records for it a Failure whose reason is the descriptive string
`Timeout processing org/repo#number` (not the literal `timeout`), and the
batch continues: with the deadline never exceeded the run still completes,
the timed-out item's failure row sitting in the final result list. -/
theorem claim4_timeout_reason (C batchTimeoutMs prTimeoutMs : Nat)
    (elapsed : Nat → Nat) (duration : PRRef → Nat) (env : PipelineEnv)
    (prList : List PRRef) (pr : PRRef) (hC : 0 < C)
    (hdl : ∀ k < numWaves C prList.length, elapsed k ≤ batchTimeoutMs)
    (hto : prTimeoutMs < duration pr) (hmem : pr ∈ prList) :
    (runStore (processBatch C batchTimeoutMs elapsed
      (processSinglePRWithTimeout prTimeoutMs duration env) prList)).status =
      "completed" ∧
    ({ org := pr.org, repo := pr.repo, pr_number := pr.pr_number, success := false,
       error := some ("Timeout processing " ++ pr.org ++ "/" ++ pr.repo ++ "#" ++
         toString pr.pr_number) } : BatchResult) ∈
      (runStore (processBatch C batchTimeoutMs elapsed
        (processSinglePRWithTimeout prTimeoutMs duration env) prList)).results := by
  have hsettle : settleOne (processSinglePRWithTimeout prTimeoutMs duration env) pr =
      { org := pr.org, repo := pr.repo, pr_number := pr.pr_number, success := false,
        error := some ("Timeout processing " ++ pr.org ++ "/" ++ pr.repo ++ "#" ++
          toString pr.pr_number) } := by
    unfold settleOne processSinglePRWithTimeout
    rw [if_pos hto]
    simp [timeoutMsg_ne_empty]
  have hfold := foldl_wavesGo_complete C batchTimeoutMs hC elapsed
    (processSinglePRWithTimeout prTimeoutMs duration env)
    (prList.length + 1) prList 0 [] (applyOp initialStore DBOp.start) (by omega)
    (by intro j hj; simpa using hdl j hj)
  have hrun : runStore (processBatch C batchTimeoutMs elapsed
      (processSinglePRWithTimeout prTimeoutMs duration env) prList) =
      { status := "completed",
        completed_count :=
          if prList = [] then (applyOp initialStore DBOp.start).completed_count
          else ([] ++ settleChunk (processSinglePRWithTimeout prTimeoutMs duration env)
            prList).length,
        results := [] ++ settleChunk (processSinglePRWithTimeout prTimeoutMs duration env)
          prList,
        error_message := (applyOp initialStore DBOp.start).error_message } := by
    unfold runStore processBatch
    rw [List.foldl_cons]
    exact hfold
  constructor
  · rw [hrun]
  · rw [hrun]
    simp only [List.nil_append, settleChunk]
    rw [← hsettle]
    exact List.mem_map_of_mem _ hmem

/-- Witness for the amended C4: a one-item batch whose item runs 70 s against
a 60 s timer completes with the descriptive failure row recorded. -/
theorem claim4_timeout_reason_witness :
    (runStore (processBatch 2 900000 (fun _ => 0)
      (processSinglePRWithTimeout 60000 (fun _ => 70000) envStub)
      [⟨"acme", "web", 7⟩])).status = "completed" ∧
    ({ org := "acme", repo := "web", pr_number := 7, success := false,
       error := some ("Timeout processing " ++ "acme" ++ "/" ++ "web" ++ "#" ++
         toString (7 : Nat)) } : BatchResult) ∈
      (runStore (processBatch 2 900000 (fun _ => 0)
        (processSinglePRWithTimeout 60000 (fun _ => 70000) envStub)
        [⟨"acme", "web", 7⟩])).results :=
  claim4_timeout_reason 2 900000 60000 (fun _ => 0) (fun _ => 70000) envStub
    [⟨"acme", "web", 7⟩] ⟨"acme", "web", 7⟩ (by decide) (by decide) (by decide)
    (by decide)

/-- C10: every result list flushed to the store (progress or completion)
preserves input order — its i-th entry carries the org, repo and pr_number of
the i-th input reference, whether that item succeeded, failed or timed out. -/
theorem claim10_input_order (C batchTimeoutMs prTimeoutMs : Nat)
    (elapsed : Nat → Nat) (duration : PRRef → Nat) (env : PipelineEnv)
    (prList : List PRRef) :
    ∀ rs ∈ resultsWrites (processBatch C batchTimeoutMs elapsed
        (processSinglePRWithTimeout prTimeoutMs duration env) prList),
      ∀ (i : Nat) (hi : i < rs.length) (hi2 : i < prList.length),
        (rs.get ⟨i, hi⟩).org = (prList.get ⟨i, hi2⟩).org ∧
        (rs.get ⟨i, hi⟩).repo = (prList.get ⟨i, hi2⟩).repo ∧
        (rs.get ⟨i, hi⟩).pr_number = (prList.get ⟨i, hi2⟩).pr_number := by
  intro rs hmem i hi hi2
  have hmem2 : rs ∈ resultsWrites (wavesGo C batchTimeoutMs elapsed
      (processSinglePRWithTimeout prTimeoutMs duration env)
      (prList.length + 1) prList 0 []) := by
    simpa [processBatch, resultsWrites] using hmem
  obtain ⟨m, hm⟩ := wavesGo_writes_shape C batchTimeoutMs elapsed _
    (prList.length + 1) prList 0 [] rs hmem2
  rw [List.nil_append] at hm
  subst hm
  have hget : (settleChunk (processSinglePRWithTimeout prTimeoutMs duration env)
      (prList.take m)).get ⟨i, hi⟩ =
      settleOne (processSinglePRWithTimeout prTimeoutMs duration env)
        (prList.get ⟨i, hi2⟩) := by
    simp [settleChunk, List.get_eq_getElem, List.getElem_map, List.getElem_take]
  rw [hget]
  exact settleOne_timeout_refs prTimeoutMs duration env (prList.get ⟨i, hi2⟩)

/-- Witness for C10: the single flushed entry of a one-item batch carries the
input reference's coordinates. -/
theorem claim10_input_order_witness :
    (([timeoutRowAR] : List BatchResult).get ⟨0, by decide⟩).org =
      (([refAR] : List PRRef).get ⟨0, by decide⟩).org ∧
    (([timeoutRowAR] : List BatchResult).get ⟨0, by decide⟩).repo =
      (([refAR] : List PRRef).get ⟨0, by decide⟩).repo ∧
    (([timeoutRowAR] : List BatchResult).get ⟨0, by decide⟩).pr_number =
      (([refAR] : List PRRef).get ⟨0, by decide⟩).pr_number :=
  claim10_input_order 1 10 60000 (fun _ => 0) (fun _ => 70000) envStub
    [refAR] [timeoutRowAR] (by decide) 0 (by decide) (by decide)

/-- C6 counterexample: a pull request whose two commits are both merge
commits has zero non-merge commits — zero effective commits in the claim's
sense — yet the fallback `effectiveCommits = commits` makes the computed
review-driven change set report `hasChanges = true`, where the claim
prescribes `false`. -/
theorem claim6_counterexample :
    nonMergeCommits [mergeCommit1, mergeCommit2] = [] ∧
    (reviewChangesFor [mergeCommit1, mergeCommit2] none []).hasChanges = true := by
  exact ⟨by decide, by decide⟩

/-- C6 as amended: the merge filter is as claimed, but when it removes every
commit the code falls back to treating all commits as effective; with that
fallback, `hasChanges` is true exactly when more than one effective commit
remains, and with at most one effective commit every total is zero. -/
theorem claim6_review_changes (cms : List TransformedCommit) (rc : Option Comparison)
    (names : List String) :
    ((reviewChangesFor cms rc names).hasChanges = true ↔
      1 < (effectiveCommitsOf cms).length) ∧
    ((effectiveCommitsOf cms).length ≤ 1 →
      (reviewChangesFor cms rc names).total_additions = 0 ∧
      (reviewChangesFor cms rc names).total_deletions = 0 ∧
      (reviewChangesFor cms rc names).total_changed_files = 0) := by
  unfold reviewChangesFor buildReviewDrivenChanges
  by_cases h : 1 < (effectiveCommitsOf cms).length
  · simp only [if_pos h]
    constructor
    · simpa using h
    · intro hle
      omega
  · simp only [if_neg h]
    constructor
    · simpa using h
    · intro _
      simp

/-- Witness for the amended C6: a single ordinary commit yields zero totals
(and `hasChanges = false` by the main theorem's equivalence). -/
theorem claim6_review_changes_witness :
    (reviewChangesFor [plainCommit] none []).total_additions = 0 ∧
    (reviewChangesFor [plainCommit] none []).total_deletions = 0 ∧
    (reviewChangesFor [plainCommit] none []).total_changed_files = 0 :=
  (claim6_review_changes [plainCommit] none []).2 (by decide)

/-- C7 counterexample: in the per-commit aggregation fallback the totals are
not recomputed from the merged file map — two commits touching the same file
give a reported file count of 2 while the merged map holds one entry. -/
theorem claim7_counterexample :
    (buildCommitDiffFromMetadata [commitRowOne, commitRowTwo]
      (some [rawCommitOne, rawCommitTwo]) none).total_changed_files = 2 ∧
    (buildCommitDiffFromMetadata [commitRowOne, commitRowTwo]
      (some [rawCommitOne, rawCommitTwo]) none).files_changed.length = 1 ∧
    ¬ (buildCommitDiffFromMetadata [commitRowOne, commitRowTwo]
      (some [rawCommitOne, rawCommitTwo]) none).total_changed_files =
      (buildCommitDiffFromMetadata [commitRowOne, commitRowTwo]
        (some [rawCommitOne, rawCommitTwo]) none).files_changed.length := by
  exact ⟨by decide, by decide, by decide⟩

/-- C7 as amended: the direct-comparison summary and the PR-file-listing
branch recompute the three totals from the emitted file list; the per-commit
aggregation fallback (and the no-source case) instead reports the sums of the
transformed commits' own stats, which need not match the merged file map. -/
theorem claim7_totals (comparison : Comparison) (commits : List TransformedCommit)
    (rgc : Option (List RawCommit)) (pfs : List RawFile) (hpfs : 0 < pfs.length) :
    ((buildCommitDiffSummary comparison).total_additions =
      ((buildCommitDiffSummary comparison).files_changed.map fun f => f.additions).sum ∧
     (buildCommitDiffSummary comparison).total_deletions =
      ((buildCommitDiffSummary comparison).files_changed.map fun f => f.deletions).sum ∧
     (buildCommitDiffSummary comparison).total_changed_files =
      (buildCommitDiffSummary comparison).files_changed.length) ∧
    ((buildCommitDiffFromMetadata commits rgc (some pfs)).total_additions =
      ((buildCommitDiffFromMetadata commits rgc (some pfs)).files_changed.map
        fun f => f.additions).sum ∧
     (buildCommitDiffFromMetadata commits rgc (some pfs)).total_deletions =
      ((buildCommitDiffFromMetadata commits rgc (some pfs)).files_changed.map
        fun f => f.deletions).sum ∧
     (buildCommitDiffFromMetadata commits rgc (some pfs)).total_changed_files =
      (buildCommitDiffFromMetadata commits rgc (some pfs)).files_changed.length) ∧
    ((buildCommitDiffFromMetadata commits rgc none).total_additions =
      (commits.map fun c => c.additions).sum ∧
     (buildCommitDiffFromMetadata commits rgc none).total_deletions =
      (commits.map fun c => c.deletions).sum ∧
     (buildCommitDiffFromMetadata commits rgc none).total_changed_files =
      (commits.map fun c => c.changed_files).sum) := by
  refine ⟨?_, ?_, ?_⟩
  · simp [buildCommitDiffSummary, List.map_map]
    exact ⟨rfl, rfl⟩
  · by_cases hc : commits = [] <;>
      simp [buildCommitDiffFromMetadata, hc, hpfs]
  · by_cases hc : commits = [] <;>
      simp [buildCommitDiffFromMetadata, hc]

/-- Witness for the amended C7: the PR-file-listing branch on one file agrees
with its own file list. -/
theorem claim7_totals_witness :
    (buildCommitDiffFromMetadata [commitRowOne] none (some [sharedFile])).total_additions =
      ((buildCommitDiffFromMetadata [commitRowOne] none
        (some [sharedFile])).files_changed.map fun f => f.additions).sum :=
  ((claim7_totals { baseCommitSha := none, headCommitSha := none, files := none }
    [commitRowOne] none [sharedFile] (by decide)).2.1).1

theorem mergeCommitFiles_eq_foldl (m : List MetaFileChange) (c : RawCommit) :
    mergeCommitFiles m c = (c.files.getD []).foldl mergeCommitFileMap m := by
  unfold mergeCommitFiles
  cases c.files <;> simp

theorem foldl_mergeCommitFiles_flat :
    ∀ (cs : List RawCommit) (m : List MetaFileChange),
      cs.foldl mergeCommitFiles m = (flatCommitFiles cs).foldl mergeCommitFileMap m := by
  intro cs
  induction cs with
  | nil => intro m; simp [flatCommitFiles]
  | cons c cs ih =>
      intro m
      simp only [List.foldl_cons, flatCommitFiles, List.foldl_append]
      rw [mergeCommitFiles_eq_foldl, ih]

theorem flatCommitFiles_eq_flatMap (cs : List RawCommit) :
    flatCommitFiles cs = cs.flatMap fun c => c.files.getD [] := by
  induction cs with
  | nil => simp [flatCommitFiles]
  | cons c cs ih => simp [flatCommitFiles, ih]

theorem flatCommitFiles_perm (cs1 cs2 : List RawCommit) (h : cs1.Perm cs2) :
    (flatCommitFiles cs1).Perm (flatCommitFiles cs2) := by
  rw [flatCommitFiles_eq_flatMap, flatCommitFiles_eq_flatMap]
  exact h.flatMap_right _

theorem mergeFile_filename (g : MetaFileChange) (f : RawFile) :
    (mergeFile g f).filename = g.filename := rfl

theorem initEntry_filename (f : RawFile) : (initEntry f).filename = f.filename := rfl

theorem fcFind_mergeCommitFileMap (m : List MetaFileChange) (f : RawFile) (name : String) :
    fcFind (mergeCommitFileMap m f) name =
      if f.filename = name then
        some (mergeFile ((fcFind m f.filename).getD (initEntry f)) f)
      else fcFind m name := by
  induction m with
  | nil =>
      by_cases h : f.filename = name
      · simp [mergeCommitFileMap, fcFind, mergeFile_filename, initEntry_filename, h]
      · simp [mergeCommitFileMap, fcFind, mergeFile_filename, initEntry_filename, h]
  | cons g gs ih =>
      by_cases hgf : g.filename = f.filename
      · simp only [mergeCommitFileMap, if_pos hgf]
        by_cases h : f.filename = name
        · simp [fcFind, mergeFile_filename, hgf, h]
        · simp [fcFind, mergeFile_filename, hgf, h]
      · simp only [mergeCommitFileMap, if_neg hgf]
        by_cases hgn : g.filename = name
        · have hfn : ¬ f.filename = name := by
            intro he
            exact hgf (hgn.trans he.symm)
          simp [fcFind, hgn, hfn]
        · have hb : (g.filename == name) = false := by simp [hgn]
          by_cases h : f.filename = name
          · have hbf : (g.filename == f.filename) = false := by simp [hgf]
            simp only [fcFind, List.find?] at ih ⊢
            simp [hb, hbf, ih, h]
          · simp only [fcFind, List.find?] at ih ⊢
            simp [hb, ih, h]

theorem fcFind_foldl_field (proj : MetaFileChange → Nat) (rawProj : RawFile → Option Nat)
    (hmerge : ∀ g f, proj (mergeFile g f) = proj g + nat0 (rawProj f))
    (hinit : ∀ f, proj (initEntry f) = 0) :
    ∀ (fs : List RawFile) (m : List MetaFileChange) (name : String),
      ((fcFind (fs.foldl mergeCommitFileMap m) name).map proj).getD 0 =
        ((fcFind m name).map proj).getD 0 +
          ((fs.filter fun f => f.filename == name).map fun f => nat0 (rawProj f)).sum := by
  intro fs
  induction fs with
  | nil => intro m name; simp
  | cons f fs ih =>
      intro m name
      simp only [List.foldl_cons]
      rw [ih]
      by_cases h : f.filename = name
      · subst h
        rw [fcFind_mergeCommitFileMap, if_pos rfl]
        have he : proj ((fcFind m f.filename).getD (initEntry f)) =
            ((fcFind m f.filename).map proj).getD 0 := by
          cases hfm : fcFind m f.filename
          · simp [hinit]
          · simp
        have hstep : ((some (mergeFile ((fcFind m f.filename).getD (initEntry f)) f)).map
            proj).getD 0 = ((fcFind m f.filename).map proj).getD 0 + nat0 (rawProj f) := by
          simp [hmerge, he]
        rw [hstep]
        have hfil : (f :: fs).filter (fun g => g.filename == f.filename) =
            f :: fs.filter (fun g => g.filename == f.filename) := by
          simp [List.filter_cons]
        rw [hfil]
        simp only [List.map_cons, List.sum_cons]
        omega
      · have hb : (f.filename == name) = false := by simp [h]
        rw [fcFind_mergeCommitFileMap, if_neg h]
        simp [List.filter_cons, hb]

theorem fcFind_foldl_isSome :
    ∀ (fs : List RawFile) (m : List MetaFileChange) (name : String),
      (fcFind (fs.foldl mergeCommitFileMap m) name).isSome =
        ((fcFind m name).isSome || fs.any fun f => f.filename == name) := by
  intro fs
  induction fs with
  | nil => intro m name; simp
  | cons f fs ih =>
      intro m name
      simp only [List.foldl_cons]
      rw [ih]
      by_cases h : f.filename = name
      · rw [fcFind_mergeCommitFileMap, if_pos h]
        simp [h]
      · have hb : (f.filename == name) = false := by simp [h]
        rw [fcFind_mergeCommitFileMap, if_neg h]
        simp [hb]

theorem total_field_step (proj : MetaFileChange → Nat) (rawProj : RawFile → Option Nat)
    (hmerge : ∀ g f, proj (mergeFile g f) = proj g + nat0 (rawProj f))
    (hinit : ∀ f, proj (initEntry f) = 0) :
    ∀ (m : List MetaFileChange) (f : RawFile),
      ((mergeCommitFileMap m f).map proj).sum = (m.map proj).sum + nat0 (rawProj f) := by
  intro m
  induction m with
  | nil => intro f; simp [mergeCommitFileMap, hmerge, hinit]
  | cons g gs ih =>
      intro f
      by_cases hgf : g.filename = f.filename
      · simp only [mergeCommitFileMap, if_pos hgf, List.map_cons, List.sum_cons, hmerge]
        omega
      · simp only [mergeCommitFileMap, if_neg hgf, List.map_cons, List.sum_cons, ih]
        omega

theorem total_field_foldl (proj : MetaFileChange → Nat) (rawProj : RawFile → Option Nat)
    (hmerge : ∀ g f, proj (mergeFile g f) = proj g + nat0 (rawProj f))
    (hinit : ∀ f, proj (initEntry f) = 0) :
    ∀ (fs : List RawFile) (m : List MetaFileChange),
      ((fs.foldl mergeCommitFileMap m).map proj).sum =
        (m.map proj).sum + (fs.map fun f => nat0 (rawProj f)).sum := by
  intro fs
  induction fs with
  | nil => intro m; simp
  | cons f fs ih =>
      intro m
      simp only [List.foldl_cons, List.map_cons, List.sum_cons]
      rw [ih, total_field_step proj rawProj hmerge hinit]
      omega

theorem fcFind_isSome_iff_mem (m : List MetaFileChange) (name : String) :
    (fcFind m name).isSome = true ↔ name ∈ m.map fun g => g.filename := by
  induction m with
  | nil => simp [fcFind]
  | cons g gs ih =>
      by_cases h : g.filename = name
      · simp [fcFind, List.find?, h]
      · have hb : (g.filename == name) = false := by simp [h]
        simp only [fcFind, List.find?, hb] at ih ⊢
        simp [ih, h]
        intro he
        exact absurd he.symm h

theorem keys_mergeCommitFileMap (m : List MetaFileChange) (f : RawFile) :
    (mergeCommitFileMap m f).map (fun g => g.filename) =
      if (fcFind m f.filename).isSome then m.map (fun g => g.filename)
      else m.map (fun g => g.filename) ++ [f.filename] := by
  induction m with
  | nil => simp [mergeCommitFileMap, fcFind, mergeFile_filename, initEntry_filename]
  | cons g gs ih =>
      by_cases hgf : g.filename = f.filename
      · have hb : (g.filename == f.filename) = true := by simp [hgf]
        simp [mergeCommitFileMap, if_pos hgf, fcFind, List.find?, hb,
          mergeFile_filename, hgf]
      · have hb : (g.filename == f.filename) = false := by simp [hgf]
        simp only [mergeCommitFileMap, if_neg hgf, List.map_cons, fcFind,
          List.find?, hb] at ih ⊢
        by_cases hs : (List.find? (fun g => g.filename == f.filename) gs).isSome
        · rw [if_pos hs] at ih
          rw [if_pos hs, ih]
        · rw [if_neg hs] at ih
          rw [if_neg hs, ih]
          simp

theorem keys_nodup_foldl :
    ∀ (fs : List RawFile) (m : List MetaFileChange),
      (m.map fun g => g.filename).Nodup →
      ((fs.foldl mergeCommitFileMap m).map fun g => g.filename).Nodup := by
  intro fs
  induction fs with
  | nil => intro m h; exact h
  | cons f fs ih =>
      intro m h
      simp only [List.foldl_cons]
      apply ih
      rw [keys_mergeCommitFileMap]
      by_cases hs : (fcFind m f.filename).isSome
      · rw [if_pos hs]
        exact h
      · rw [if_neg hs]
        rw [List.nodup_append]
        refine ⟨h, List.nodup_singleton _, ?_⟩
        intro a ha hb
        simp only [List.mem_singleton] at hb
        subst hb
        have := (fcFind_isSome_iff_mem m f.filename).mpr ha
        exact hs this

theorem any_filename_perm (l1 l2 : List RawFile) (h : l1.Perm l2) (name : String) :
    (l1.any fun f => f.filename == name) = (l2.any fun f => f.filename == name) := by
  rw [Bool.eq_iff_iff]
  simp only [List.any_eq_true]
  constructor
  · rintro ⟨f, hf, hp⟩
    exact ⟨f, h.mem_iff.mp hf, hp⟩
  · rintro ⟨f, hf, hp⟩
    exact ⟨f, h.mem_iff.mpr hf, hp⟩

theorem fcFind_perm_isSome (l1 l2 : List RawFile) (h : l1.Perm l2) (name : String) :
    (fcFind (l1.foldl mergeCommitFileMap []) name).isSome =
      (fcFind (l2.foldl mergeCommitFileMap []) name).isSome := by
  rw [fcFind_foldl_isSome, fcFind_foldl_isSome]
  simp only [fcFind, List.find?, Option.isSome_none, Bool.false_or]
  exact any_filename_perm l1 l2 h name

theorem fcFind_perm_field (proj : MetaFileChange → Nat) (rawProj : RawFile → Option Nat)
    (hmerge : ∀ g f, proj (mergeFile g f) = proj g + nat0 (rawProj f))
    (hinit : ∀ f, proj (initEntry f) = 0)
    (l1 l2 : List RawFile) (h : l1.Perm l2) (name : String) :
    ((fcFind (l1.foldl mergeCommitFileMap []) name).map proj) =
      ((fcFind (l2.foldl mergeCommitFileMap []) name).map proj) := by
  have hs := fcFind_perm_isSome l1 l2 h name
  have hsum : ((l1.filter fun f => f.filename == name).map
      fun f => nat0 (rawProj f)).sum =
      ((l2.filter fun f => f.filename == name).map fun f => nat0 (rawProj f)).sum :=
    (((h.filter _).map _).sum_eq)
  cases o1 : fcFind (l1.foldl mergeCommitFileMap []) name with
  | none =>
      cases o2 : fcFind (l2.foldl mergeCommitFileMap []) name with
      | none => rfl
      | some g2 =>
          rw [o1, o2] at hs
          simp at hs
  | some g1 =>
      cases o2 : fcFind (l2.foldl mergeCommitFileMap []) name with
      | none =>
          rw [o1, o2] at hs
          simp at hs
      | some g2 =>
          have h1 := fcFind_foldl_field proj rawProj hmerge hinit l1 [] name
          have h2 := fcFind_foldl_field proj rawProj hmerge hinit l2 [] name
          rw [o1] at h1
          rw [o2] at h2
          simp only [fcFind, List.find?] at h1 h2
          simp at h1 h2
          simp [h1, h2, hsum]

theorem length_foldl_perm (l1 l2 : List RawFile) (h : l1.Perm l2) :
    (l1.foldl mergeCommitFileMap []).length = (l2.foldl mergeCommitFileMap []).length := by
  have hn1 : ((l1.foldl mergeCommitFileMap []).map fun g => g.filename).Nodup :=
    keys_nodup_foldl l1 [] (by simp)
  have hn2 : ((l2.foldl mergeCommitFileMap []).map fun g => g.filename).Nodup :=
    keys_nodup_foldl l2 [] (by simp)
  have hmemiff : ∀ a, (a ∈ (l1.foldl mergeCommitFileMap []).map fun g => g.filename) ↔
      (a ∈ (l2.foldl mergeCommitFileMap []).map fun g => g.filename) := by
    intro a
    rw [← fcFind_isSome_iff_mem, ← fcFind_isSome_iff_mem,
      fcFind_perm_isSome l1 l2 h a]
  have hperm := (List.perm_ext_iff_of_nodup hn1 hn2).mpr hmemiff
  have hlen := hperm.length_eq
  simpa using hlen

/-- C8 counterexample: swapping two commits that touch the same file changes
the merged entry's `status` (it is taken from whichever commit touches the
file first), so the per-commit file-merge is not order-independent as stated. -/
theorem claim8_counterexample :
    ([rawCommitAdd, rawCommitTwo].Perm [rawCommitTwo, rawCommitAdd]) ∧
    (([rawCommitAdd, rawCommitTwo].foldl mergeCommitFiles []).map fun g => g.status) =
      ["added"] ∧
    (([rawCommitTwo, rawCommitAdd].foldl mergeCommitFiles []).map fun g => g.status) =
      ["modified"] ∧
    ¬ [rawCommitAdd, rawCommitTwo].foldl mergeCommitFiles [] =
      [rawCommitTwo, rawCommitAdd].foldl mergeCommitFiles [] := by
  exact ⟨by decide, by decide, by decide, by decide⟩

/-- C8 as amended: merging the same collection of per-commit file changes in
any commit order yields identical total additions, deletions and changes,
an identical file count, and for every filename the same membership and the
same accumulated additions, deletions and changes; the entry's `status`
(first toucher wins) and kept patch excerpt (a later patch longer than the
stored, already truncated one wins) may depend on the order. -/
theorem claim8_merge_order (cs1 cs2 : List RawCommit) (name : String)
    (h : cs1.Perm cs2) :
    (((cs1.foldl mergeCommitFiles []).map fun g => g.additions).sum =
      ((cs2.foldl mergeCommitFiles []).map fun g => g.additions).sum) ∧
    (((cs1.foldl mergeCommitFiles []).map fun g => g.deletions).sum =
      ((cs2.foldl mergeCommitFiles []).map fun g => g.deletions).sum) ∧
    (((cs1.foldl mergeCommitFiles []).map fun g => g.changes).sum =
      ((cs2.foldl mergeCommitFiles []).map fun g => g.changes).sum) ∧
    (cs1.foldl mergeCommitFiles []).length = (cs2.foldl mergeCommitFiles []).length ∧
    ((fcFind (cs1.foldl mergeCommitFiles []) name).map fun g => g.additions) =
      ((fcFind (cs2.foldl mergeCommitFiles []) name).map fun g => g.additions) ∧
    ((fcFind (cs1.foldl mergeCommitFiles []) name).map fun g => g.deletions) =
      ((fcFind (cs2.foldl mergeCommitFiles []) name).map fun g => g.deletions) ∧
    ((fcFind (cs1.foldl mergeCommitFiles []) name).map fun g => g.changes) =
      ((fcFind (cs2.foldl mergeCommitFiles []) name).map fun g => g.changes) := by
  have hp := flatCommitFiles_perm cs1 cs2 h
  rw [foldl_mergeCommitFiles_flat cs1, foldl_mergeCommitFiles_flat cs2]
  refine ⟨?_, ?_, ?_, ?_, ?_, ?_, ?_⟩
  · rw [total_field_foldl (fun g => g.additions) (fun f => f.additions)
      (fun _ _ => rfl) (fun _ => rfl),
      total_field_foldl (fun g => g.additions) (fun f => f.additions)
      (fun _ _ => rfl) (fun _ => rfl)]
    simp only [List.map_nil, List.sum_nil, Nat.zero_add]
    exact (hp.map _).sum_eq
  · rw [total_field_foldl (fun g => g.deletions) (fun f => f.deletions)
      (fun _ _ => rfl) (fun _ => rfl),
      total_field_foldl (fun g => g.deletions) (fun f => f.deletions)
      (fun _ _ => rfl) (fun _ => rfl)]
    simp only [List.map_nil, List.sum_nil, Nat.zero_add]
    exact (hp.map _).sum_eq
  · rw [total_field_foldl (fun g => g.changes) (fun f => f.changes)
      (fun _ _ => rfl) (fun _ => rfl),
      total_field_foldl (fun g => g.changes) (fun f => f.changes)
      (fun _ _ => rfl) (fun _ => rfl)]
    simp only [List.map_nil, List.sum_nil, Nat.zero_add]
    exact (hp.map _).sum_eq
  · exact length_foldl_perm _ _ hp
  · exact fcFind_perm_field (fun g => g.additions) (fun f => f.additions)
      (fun _ _ => rfl) (fun _ => rfl) _ _ hp name
  · exact fcFind_perm_field (fun g => g.deletions) (fun f => f.deletions)
      (fun _ _ => rfl) (fun _ => rfl) _ _ hp name
  · exact fcFind_perm_field (fun g => g.changes) (fun f => f.changes)
      (fun _ _ => rfl) (fun _ => rfl) _ _ hp name

/-- Witness for the amended C8: two commits over the same file merged in both
orders agree on accumulated additions and on the per-filename entry stats. -/
theorem claim8_merge_order_witness :
    (((([rawCommitOne, rawCommitTwo].foldl mergeCommitFiles []).map
      fun g => g.additions).sum =
      ((([rawCommitTwo, rawCommitOne].foldl mergeCommitFiles []).map
        fun g => g.additions).sum)) ∧
    ((fcFind ([rawCommitOne, rawCommitTwo].foldl mergeCommitFiles []) "a.txt").map
      fun g => g.additions) =
      ((fcFind ([rawCommitTwo, rawCommitOne].foldl mergeCommitFiles []) "a.txt").map
        fun g => g.additions)) := by
  have h := claim8_merge_order [rawCommitOne, rawCommitTwo]
    [rawCommitTwo, rawCommitOne] "a.txt" (by decide)
  exact ⟨h.1, h.2.2.2.2.1⟩
